import Mathlib

/-!
Verification development for the yahat-cpp embeddable HTTP server library.

The definitions below are shallow embeddings of the C++ sources:
`src/HttpServer.cpp`, `src/Metrics.cpp`, `include/yahat/HttpServer.h`,
`include/yahat/Metrics.h` and `src/YahatInstanceMetrics.cpp`.
Strings are modelled as Lean `String` / `List Char`; machine integers that
cannot overflow in the modelled scenarios (sizes, status codes, counter
values) are modelled as `Nat`; C++ functions that may throw are modelled
with `Except`/option-style results; external inputs (the system clock, the
zlib inflate/deflate codecs, the authenticator functor, the registered
handler objects) are modelled as explicit parameters.
-/

/- ------------------------------------------------------------------ -/
/- Request / Response model (include/yahat/HttpServer.h)              -/
/- ------------------------------------------------------------------ -/

/-- `Request::Type` (include/yahat/HttpServer.h): the verbs accepted by
`to_type`; any other verb makes `to_type` throw. -/
inductive RType
  | GET
  | PUT
  | PATCH
  | POST
  | DELETE
  | OPTIONS
deriving DecidableEq

/-- `struct Response` (include/yahat/HttpServer.h), restricted to the fields
the session and reply-building code reads.  `compression` is `true` for
`Compression::GZIP`, `false` for `Compression::NONE`.  `hasContinuation`
models `cont_ != nullptr`. -/
structure Resp where
  code : Nat := 200
  reason : String := "OK"
  body : String := ""
  target : String := ""
  mime_type : String := ""
  close : Bool := false
  cors : Bool := false
  compression : Bool := false
  cookies : List (String × String) := []
  hasContinuation : Bool := false
deriving DecidableEq

/- ------------------------------------------------------------------ -/
/- Route dispatch (HttpServer::onRequest, HttpServer.cpp:914-969)     -/
/- ------------------------------------------------------------------ -/

/-- A registered route table entry: the route prefix (a `std::string` key of
`routes_`, modelled as its character list) together with an identifier for
the stored handler object. -/
abbrev Routes := List (List Char × Nat)

/-- What a registered handler does when its `onReqest` is called: return a
`Response`, throw a `Response` (the early-exit channel caught in
`HttpServer::onRequest`), or throw some other exception. -/
inductive HBehavior
  | ret (r : Resp)
  | throwResp (r : Resp)
  | throwExn
deriving DecidableEq

/-- The per-route test in the loop of `HttpServer::onRequest`
(HttpServer.cpp:922-941): the target must be at least as long as the route,
the target must either have the same size as the route or a `'/'` at the
position where the route ends, and the first `route.size()` characters of
the target must equal the route. -/
def routeMatches (tw route : List Char) : Prop :=
  route.length ≤ tw.length ∧
    (tw.length = route.length ∨ tw.get? route.length = some '/') ∧
    tw.take route.length = route

instance (tw route : List Char) : Decidable (routeMatches tw route) := by
  unfold routeMatches; infer_instance

/-- The loop of `HttpServer::onRequest` (HttpServer.cpp:922-941): walk the
route table keeping the best (longest) match found so far.  `best` is the
pair `(best_route, best_handler)`. -/
def findBest (tw : List Char) :
    Routes → Option (List Char × Nat) → Option (List Char × Nat)
  | [], best => best
  | (route, handler) :: rest, best =>
    if tw.length < route.length then
      findBest tw rest best
    else if tw.length = route.length ∨ tw.get? route.length = some '/' then
      if tw.take route.length = route then
        match best with
        | none => findBest tw rest (some (route, handler))
        | some (br, bh) =>
          if br.length < route.length then
            findBest tw rest (some (route, handler))
          else
            findBest tw rest (some (br, bh))
      else
        findBest tw rest best
    else
      findBest tw rest best

/-- The observable result of `HttpServer::onRequest`: the `Response`
returned, which handler (if any) had its `onReqest` called, and the value
assigned to `req.route` (assigned before the handler is invoked;
`none` = left untouched). -/
structure DispatchResult where
  resp : Resp
  invoked : Option Nat
  routeSet : Option (List Char)
deriving DecidableEq

/-- `HttpServer::onRequest` (HttpServer.cpp:914-969).  `handlers` maps a
handler identifier to the behaviour of its `onReqest` call.  On a match the
route is stored into `req.route`, the handler is invoked inside a `try`
that converts a thrown `Response` into the reply and any other exception
into `500 Internal server error`; with no match the result is
`404 Document not found`. -/
def onRequest (handlers : Nat → HBehavior) (routes : Routes)
    (tw : List Char) : DispatchResult :=
  match findBest tw routes none with
  | some (route, handler) =>
    match handlers handler with
    | .ret r => ⟨r, some handler, some route⟩
    | .throwResp r => ⟨r, some handler, some route⟩
    | .throwExn =>
      ⟨{ code := 500, reason := "Internal server error" }, some handler,
        some route⟩
  | none => ⟨{ code := 404, reason := "Document not found" }, none, none⟩

/-- The claim's phrasing of a route match: the target equals the prefix, or
starts with it and has `'/'` right after it. -/
def claimMatch (tw route : List Char) : Prop :=
  tw = route ∨ ((∃ t, tw = route ++ t) ∧ tw.get? route.length = some '/')

theorem routeMatches_iff_claimMatch (tw route : List Char) :
    routeMatches tw route ↔ claimMatch tw route := by
  constructor
  · rintro ⟨hlen, hor, htake⟩
    rcases hor with heq | hslash
    · left
      have := htake
      rwa [heq.symm, List.take_length] at this
    · right
      refine ⟨⟨tw.drop route.length, ?_⟩, hslash⟩
      conv_lhs => rw [← List.take_append_drop route.length tw, htake]
  · rintro (rfl | ⟨⟨t, rfl⟩, hslash⟩)
    · exact ⟨le_rfl, Or.inl rfl, by simp⟩
    · refine ⟨?_, Or.inr hslash, ?_⟩
      · simp
      · simp

instance (tw route : List Char) : Decidable (claimMatch tw route) :=
  decidable_of_iff _ (routeMatches_iff_claimMatch tw route)

theorem findBest_no_match (tw : List Char) :
    ∀ (rs : Routes) (best : Option (List Char × Nat)),
      (∀ p ∈ rs, ¬ routeMatches tw p.1) → findBest tw rs best = best
  | [], _, _ => rfl
  | (route, handler) :: rest, best, h => by
    have hr : ¬ routeMatches tw route := h (route, handler) (List.mem_cons_self _ _)
    have hrest : ∀ p ∈ rest, ¬ routeMatches tw p.1 :=
      fun p hp => h p (List.mem_cons_of_mem _ hp)
    unfold findBest
    by_cases h1 : tw.length < route.length
    · rw [if_pos h1]; exact findBest_no_match tw rest best hrest
    · rw [if_neg h1]
      by_cases h2 : tw.length = route.length ∨ tw.get? route.length = some '/'
      · rw [if_pos h2]
        by_cases h3 : tw.take route.length = route
        · exact absurd ⟨Nat.le_of_not_lt h1, h2, h3⟩ hr
        · rw [if_neg h3]; exact findBest_no_match tw rest best hrest
      · rw [if_neg h2]; exact findBest_no_match tw rest best hrest


theorem findBest_sound (tw : List Char) :
    ∀ (rs : Routes) (best : Option (List Char × Nat)) (res : List Char × Nat),
      findBest tw rs best = some res →
      (res ∈ rs ∧ routeMatches tw res.1) ∨ best = some res
  | [], _, _, h => Or.inr h
  | (route, handler) :: rest, best, res, h => by
    have step :
        ∀ best', findBest tw rest best' = some res →
          (res ∈ rest ∧ routeMatches tw res.1) ∨ best' = some res :=
      fun best' => findBest_sound tw rest best' res
    unfold findBest at h
    by_cases h1 : tw.length < route.length
    · rw [if_pos h1] at h
      rcases step best h with h' | h'
      · exact Or.inl ⟨List.mem_cons_of_mem _ h'.1, h'.2⟩
      · exact Or.inr h'
    · rw [if_neg h1] at h
      by_cases h2 : tw.length = route.length ∨ tw.get? route.length = some '/'
      · rw [if_pos h2] at h
        by_cases h3 : tw.take route.length = route
        · rw [if_pos h3] at h
          have hm : routeMatches tw route := ⟨Nat.le_of_not_lt h1, h2, h3⟩
          rcases best with _ | ⟨br, bh⟩
          · dsimp only at h
            rcases step _ h with h' | h'
            · exact Or.inl ⟨List.mem_cons_of_mem _ h'.1, h'.2⟩
            · cases h'
              exact Or.inl ⟨List.mem_cons_self _ _, hm⟩
          · dsimp only at h
            by_cases h4 : br.length < route.length
            · rw [if_pos h4] at h
              rcases step _ h with h' | h'
              · exact Or.inl ⟨List.mem_cons_of_mem _ h'.1, h'.2⟩
              · cases h'
                exact Or.inl ⟨List.mem_cons_self _ _, hm⟩
            · rw [if_neg h4] at h
              rcases step _ h with h' | h'
              · exact Or.inl ⟨List.mem_cons_of_mem _ h'.1, h'.2⟩
              · exact Or.inr h'
        · rw [if_neg h3] at h
          rcases step best h with h' | h'
          · exact Or.inl ⟨List.mem_cons_of_mem _ h'.1, h'.2⟩
          · exact Or.inr h'
      · rw [if_neg h2] at h
        rcases step best h with h' | h'
        · exact Or.inl ⟨List.mem_cons_of_mem _ h'.1, h'.2⟩
        · exact Or.inr h'

theorem findBest_some (tw : List Char) :
    ∀ (rs : Routes) (b : List Char × Nat),
      ∃ res, findBest tw rs (some b) = some res ∧ b.1.length ≤ res.1.length
  | [], b => ⟨b, rfl, le_rfl⟩
  | (route, handler) :: rest, b => by
    obtain ⟨ba, bb⟩ := b
    unfold findBest
    by_cases h1 : tw.length < route.length
    · rw [if_pos h1]; exact findBest_some tw rest (ba, bb)
    · rw [if_neg h1]
      by_cases h2 : tw.length = route.length ∨ tw.get? route.length = some '/'
      · rw [if_pos h2]
        by_cases h3 : tw.take route.length = route
        · rw [if_pos h3]
          dsimp only
          by_cases h4 : ba.length < route.length
          · rw [if_pos h4]
            obtain ⟨res, hres, hlen⟩ := findBest_some tw rest (route, handler)
            exact ⟨res, hres, le_trans (Nat.le_of_lt h4) hlen⟩
          · rw [if_neg h4]
            exact findBest_some tw rest (ba, bb)
        · rw [if_neg h3]; exact findBest_some tw rest (ba, bb)
      · rw [if_neg h2]; exact findBest_some tw rest (ba, bb)

theorem findBest_max (tw : List Char) :
    ∀ (rs : Routes) (best : Option (List Char × Nat)) (r : List Char) (hid : Nat),
      (r, hid) ∈ rs → routeMatches tw r →
      ∃ res, findBest tw rs best = some res ∧ r.length ≤ res.1.length
  | [], _, _, _, hmem, _ => absurd hmem (List.not_mem_nil _)
  | (route, handler) :: rest, best, r, hid, hmem, hm => by
    unfold findBest
    rcases List.mem_cons.mp hmem with heq | htail
    · injection heq with e1 e2
      subst e1; subst e2
      obtain ⟨hle, hor, htake⟩ := hm
      rw [if_neg (Nat.not_lt.mpr hle), if_pos hor, if_pos htake]
      rcases best with _ | ⟨br, bh⟩
      · exact findBest_some tw rest (r, hid)
      · dsimp only
        by_cases h4 : br.length < r.length
        · rw [if_pos h4]; exact findBest_some tw rest (r, hid)
        · rw [if_neg h4]
          obtain ⟨res, hres, hlen⟩ := findBest_some tw rest (br, bh)
          exact ⟨res, hres, le_trans (Nat.le_of_not_lt h4) hlen⟩
    · by_cases h1 : tw.length < route.length
      · rw [if_pos h1]; exact findBest_max tw rest best r hid htail hm
      · rw [if_neg h1]
        by_cases h2 : tw.length = route.length ∨ tw.get? route.length = some '/'
        · rw [if_pos h2]
          by_cases h3 : tw.take route.length = route
          · rw [if_pos h3]
            rcases best with _ | ⟨br, bh⟩
            · exact findBest_max tw rest _ r hid htail hm
            · dsimp only
              by_cases h4 : br.length < route.length
              · rw [if_pos h4]; exact findBest_max tw rest _ r hid htail hm
              · rw [if_neg h4]; exact findBest_max tw rest _ r hid htail hm
          · rw [if_neg h3]; exact findBest_max tw rest best r hid htail hm
        · rw [if_neg h2]; exact findBest_max tw rest best r hid htail hm

theorem nodup_keys_handler_eq {routes : Routes}
    (hnd : (routes.map Prod.fst).Nodup) {P : List Char} {h h' : Nat}
    (h1 : (P, h) ∈ routes) (h2 : (P, h') ∈ routes) : h' = h := by
  induction routes with
  | nil => exact absurd h1 (List.not_mem_nil _)
  | cons q rest ih =>
    obtain ⟨qa, qb⟩ := q
    rw [List.map_cons, List.nodup_cons] at hnd
    rcases List.mem_cons.mp h1 with he1 | ht1 <;>
      rcases List.mem_cons.mp h2 with he2 | ht2
    · injection he1 with e1 e2
      injection he2 with e3 e4
      rw [e4, ← e2]
    · injection he1 with e1 e2
      have hmem' : P ∈ rest.map Prod.fst := List.mem_map_of_mem Prod.fst ht2
      rw [e1] at hmem'
      exact absurd hmem' hnd.1
    · injection he2 with e3 e4
      have hmem' : P ∈ rest.map Prod.fst := List.mem_map_of_mem Prod.fst ht1
      rw [e3] at hmem'
      exact absurd hmem' hnd.1
    · exact ih hnd.2 ht1 ht2

/-- C1: For every set of registered route prefixes and every request target
T, `HttpServer::onRequest` invokes exactly the handler of the longest
registered prefix P such that T equals P, or T starts with P and the
character of T at position |P| is `'/'`; `request.route` is set to P before
the handler is called (modelled by `routeSet`); and if no such prefix
exists the result is `404 Document not found` with no handler invoked. -/
theorem C1_longest_prefix_dispatch (handlers : Nat → HBehavior)
    (routes : Routes) (tw : List Char)
    (hnd : (routes.map Prod.fst).Nodup) :
    ((∃ p ∈ routes, claimMatch tw p.1) →
      ∃ P h, (P, h) ∈ routes ∧ claimMatch tw P ∧
        (∀ q ∈ routes, claimMatch tw q.1 → q.1.length ≤ P.length) ∧
        (∀ h', (P, h') ∈ routes → h' = h) ∧
        (onRequest handlers routes tw).invoked = some h ∧
        (onRequest handlers routes tw).routeSet = some P) ∧
    ((∀ p ∈ routes, ¬ claimMatch tw p.1) →
      (onRequest handlers routes tw).resp.code = 404 ∧
      (onRequest handlers routes tw).resp.reason = "Document not found" ∧
      (onRequest handlers routes tw).invoked = none ∧
      (onRequest handlers routes tw).routeSet = none) := by
  constructor
  · rintro ⟨⟨pr, ph⟩, hpmem, hpmatch⟩
    rw [← routeMatches_iff_claimMatch] at hpmatch
    obtain ⟨res, hres, _⟩ := findBest_max tw routes none pr ph hpmem hpmatch
    obtain ⟨ra, rh⟩ := res
    have hsound := findBest_sound tw routes none (ra, rh) hres
    rcases hsound with ⟨hmem, hmatch⟩ | habs
    · refine ⟨ra, rh, hmem, (routeMatches_iff_claimMatch tw ra).mp hmatch,
        ?_, ?_, ?_, ?_⟩
      · rintro ⟨qa, qh⟩ hqmem hqmatch
        rw [← routeMatches_iff_claimMatch] at hqmatch
        obtain ⟨res', hres', hlen'⟩ := findBest_max tw routes none qa qh hqmem hqmatch
        rw [hres] at hres'
        cases hres'
        exact hlen'
      · exact fun h' hmem' => nodup_keys_handler_eq hnd hmem hmem'
      · unfold onRequest
        rw [hres]
        dsimp only
        cases hh : handlers rh <;> rfl
      · unfold onRequest
        rw [hres]
        dsimp only
        cases hh : handlers rh <;> rfl
    · cases habs
  · intro hnone
    have h0 : ∀ p ∈ routes, ¬ routeMatches tw p.1 := by
      intro p hp
      rw [routeMatches_iff_claimMatch]
      exact hnone p hp
    have : findBest tw routes none = none := findBest_no_match tw routes none h0
    unfold onRequest
    rw [this]
    exact ⟨rfl, rfl, rfl, rfl⟩

/-- Concrete route table for exercising `C1_longest_prefix_dispatch`:
prefixes `/api` and `/api/v1` with handler identifiers 1 and 2. -/
def routesW : Routes := [("/api".data, 1), ("/api/v1".data, 2)]

/-- A handler environment where every handler returns the default
response. -/
def handlersW : Nat → HBehavior := fun _ => .ret {}

theorem C1_longest_prefix_dispatch_witness :
    ((routesW.map Prod.fst).Nodup) ∧
    (((∃ p ∈ routesW, claimMatch "/api/v1/foo".data p.1) →
      ∃ P h, (P, h) ∈ routesW ∧ claimMatch "/api/v1/foo".data P ∧
        (∀ q ∈ routesW, claimMatch "/api/v1/foo".data q.1 →
          q.1.length ≤ P.length) ∧
        (∀ h', (P, h') ∈ routesW → h' = h) ∧
        (onRequest handlersW routesW "/api/v1/foo".data).invoked = some h ∧
        (onRequest handlersW routesW "/api/v1/foo".data).routeSet = some P) ∧
    ((∀ p ∈ routesW, ¬ claimMatch "/api/v1/foo".data p.1) →
      (onRequest handlersW routesW "/api/v1/foo".data).resp.code = 404 ∧
      (onRequest handlersW routesW "/api/v1/foo".data).resp.reason =
        "Document not found" ∧
      (onRequest handlersW routesW "/api/v1/foo".data).invoked = none ∧
      (onRequest handlersW routesW "/api/v1/foo".data).routeSet = none)) :=
  ⟨by decide,
    C1_longest_prefix_dispatch handlersW routesW "/api/v1/foo".data (by decide)⟩

/- ------------------------------------------------------------------ -/
/- MIME inference and reply building (HttpServer.cpp:426-479,         -/
/- 1098-1155; include/yahat/HttpServer.h:249-259)                     -/
/- ------------------------------------------------------------------ -/

/-- `Response::getMimeType` (HttpServer.cpp:1098-1136): the extension →
MIME-type table; unknown extensions yield the empty string.  The C++
declaration defaults the argument to `"json"`. -/
def getMimeType (type : String) : String :=
  if type = "json" then "application/json; charset=utf-8"
  else if type = "bin" then "application/octet-stream"
  else if type = "bz" then "application/x-bzip"
  else if type = "bz2" then "application/x-bzip2"
  else if type = "css" then "text/css"
  else if type = "csv" then "text/csv"
  else if type = "gz" then "application/gzip"
  else if type = "gif" then "image/gif"
  else if type = "htm" then "text/html"
  else if type = "html" then "text/html"
  else if type = "ico" then "image/vnd.microsoft.icon"
  else if type = "jar" then "application/java-archive"
  else if type = "jpeg" then "image/jpeg"
  else if type = "jpg" then "image/jpeg"
  else if type = "js" then "text/javascript"
  else if type = "mjs" then "text/javascript"
  else if type = "otf" then "font/otf"
  else if type = "png" then "image/png"
  else if type = "svg" then "image/svg+xml"
  else if type = "tar" then "application/x-tar"
  else if type = "tiff" then "image/tiff"
  else if type = "ttf" then "font/ttf"
  else if type = "txt" then "text/plain; charset=utf-8"
  else if type = "xhtml" then "application/xhtml+xml"
  else if type = "xml" then "application/xml"
  else if type = "zip" then "application/zip"
  else if type = "7z" then "application/x-7z-compressed"
  else if type = "jsonld" then "application/ld+json"
  else ""

/-- The extension of `Response::target` as computed by `Response::mimeType`
(HttpServer.cpp:1139-1155): the substring after the last `'.'`, provided
`target.size() > pos + 1`; `none` when there is no dot or nothing follows
it. -/
def extOf (t : String) : Option String :=
  if t.data.contains '.' then
    let e := (t.data.reverse.takeWhile (fun c => c ≠ '.')).reverse
    if e = [] then none else some (String.mk e)
  else none

/-- `Response::mimeType` (HttpServer.cpp:1139-1155): the explicit
`mime_type` if set, else the MIME type inferred from the target's
extension, else the empty string. -/
def mimeTypeOf (r : Resp) : String :=
  if r.mime_type ≠ "" then r.mime_type
  else if r.target ≠ "" then
    match extOf r.target with
    | some e => getMimeType e
    | none => ""
  else ""

/-- One hexadecimal digit as produced by the JSON serializer for escaped
control characters. -/
def hexDigit (n : Nat) : Char :=
  if n < 10 then Char.ofNat (48 + n) else Char.ofNat (87 + n)

/-- JSON string escaping as applied by `boost::json::serialize` to the
`reason` member: quote and backslash are backslash-escaped, the common
control characters use their short forms, remaining control characters
become `\u00XX`, and all other characters pass through. -/
def jsonEscapeChar (c : Char) : List Char :=
  if c = Char.ofNat 34 then [Char.ofNat 92, Char.ofNat 34]
  else if c = Char.ofNat 92 then [Char.ofNat 92, Char.ofNat 92]
  else if c = Char.ofNat 8 then [Char.ofNat 92, 'b']
  else if c = Char.ofNat 12 then [Char.ofNat 92, 'f']
  else if c = Char.ofNat 10 then [Char.ofNat 92, 'n']
  else if c = Char.ofNat 13 then [Char.ofNat 92, 'r']
  else if c = Char.ofNat 9 then [Char.ofNat 92, 't']
  else if c.toNat < 32 then
    [Char.ofNat 92, 'u', '0', '0', hexDigit (c.toNat / 16), hexDigit (c.toNat % 16)]
  else [c]

/-- A JSON string literal for `s`. -/
def jsonString (s : String) : String :=
  String.mk (Char.ofNat 34 :: s.data.flatMap jsonEscapeChar ++ [Char.ofNat 34])

/-- `Response::responseStatusAsJson` (include/yahat/HttpServer.h:249-259):
the canonical JSON status document; `error` is `code / 100 > 2`, the keys
appear in insertion order with no whitespace (boost::json serialization). -/
def responseStatusAsJson (r : Resp) : String :=
  "\x7b\"error\":" ++ (if r.code / 100 > 2 then "true" else "false") ++
    ",\"status\":" ++ toString r.code ++
    ",\"reason\":" ++ jsonString r.reason ++ "\x7d"

/-- The four permissive CORS headers set by `makeReply`
(HttpServer.cpp:463-468), with their exact values. -/
def corsHeaderList : List (String × String) :=
  [("Access-Control-Allow-Origin", "*"),
   ("Access-Control-Allow-Credentials", "true"),
   ("Access-Control-Allow-Methods", "GET,OPTIONS,POST,PUT,PATCH,DELETE"),
   ("Access-Control-Allow-Headers",
    "Authorization, Content-Encoding, Access-Control-Allow-Headers, Origin, Accept, X-Requested-With, Content-Type, Access-Control-Request-Method, Access-Control-Request-Headers")]

/-- The serialised reply produced by `makeReply` (HttpServer.cpp:426-479):
status, reason, body and the headers the function sets.  `wwwAuthenticate`
carries a `WWW-Authenticate` value set on `res` by the caller before
`makeReply` runs (the 401 branch of `DoSession`); `makeReply` leaves it
untouched. -/
structure WireReply where
  code : Nat
  reason : String
  body : String
  contentType : Option String
  contentEncodingGzip : Bool
  server : String
  connection : String
  corsHeaders : Option (List (String × String))
  setCookies : List (String × String)
  wwwAuthenticate : Option String
deriving DecidableEq

/-- `makeReply` (HttpServer.cpp:426-479), translated statement by
statement.  `compress` is the zlib deflater (`compressGzip`), passed as a
parameter because the codec itself is external to the model.  For a
non-OPTIONS request an empty body is replaced by the canonical JSON status
document with an `application/json` content type; a non-empty body gets
the response's MIME type (falling back to JSON).  The body is gzip-coded
when the response's compression flag is GZIP.  At the end, a non-empty
`r.mimeType()` overwrites the Content-Type header. -/
def makeReply (compress : String → String) (serverId : String) (r : Resp)
    (closeConnection : Bool) (rt : RType) (www : Option String) : WireReply :=
  let bodyCt : String × Option String :=
    if rt ≠ RType.OPTIONS then
      if r.body = "" then
        (responseStatusAsJson r, some (getMimeType "json"))
      else
        let mime := if r.mime_type ≠ "" then r.mime_type else mimeTypeOf r
        let mime := if mime = "" then getMimeType "json" else mime
        (r.body, some mime)
    else
      (r.body, none)
  let bodyEnc : String × Bool :=
    if bodyCt.1 ≠ "" ∧ r.compression then (compress bodyCt.1, true)
    else (bodyCt.1, false)
  let ct := if mimeTypeOf r ≠ "" then some (mimeTypeOf r) else bodyCt.2
  { code := r.code
    reason := r.reason
    body := bodyEnc.1
    contentType := ct
    contentEncodingGzip := bodyEnc.2
    server := serverId
    connection := if closeConnection then "close" else "keep-alive"
    corsHeaders := if r.cors then some corsHeaderList else none
    setCookies := r.cookies
    wwwAuthenticate := www }

theorem responseStatusAsJson_ne_empty (r : Resp) : responseStatusAsJson r ≠ "" := by
  unfold responseStatusAsJson
  intro h
  have hd := congrArg String.data h
  rw [String.data_append, String.data_append, String.data_append,
    String.data_append, String.data_append] at hd
  simp at hd

/-- C8 (amended): for every handler response with an empty body and a
non-OPTIONS request method, `makeReply` fills the reply body with the
canonical JSON status document built from the response's code and reason
(gzip-coded iff the response's compression flag is GZIP), and sets
Content-Type to `application/json; charset=utf-8` unless the response's
`mime_type` or target extension supplies a MIME type, which then overrides
the Content-Type. -/
theorem C8_empty_body_json_status (compress : String → String)
    (serverId : String) (r : Resp) (close : Bool) (rt : RType)
    (www : Option String) (hbody : r.body = "") (hrt : rt ≠ RType.OPTIONS) :
    (makeReply compress serverId r close rt www).body =
      (if r.compression then compress (responseStatusAsJson r)
       else responseStatusAsJson r) ∧
    (makeReply compress serverId r close rt www).contentType =
      some (if mimeTypeOf r ≠ "" then mimeTypeOf r
            else "application/json; charset=utf-8") := by
  have hne := responseStatusAsJson_ne_empty r
  by_cases hc : r.compression <;> by_cases hm : mimeTypeOf r = "" <;>
    simp [makeReply, hrt, hbody, hc, hm, hne, getMimeType]

theorem C8_empty_body_json_status_witness :
    (({ code := 404, reason := "Document not found" } : Resp).body = "" ∧
      RType.GET ≠ RType.OPTIONS) ∧
    ((makeReply (fun s => s) "yahat test"
        { code := 404, reason := "Document not found" } false RType.GET
        none).body =
      (if ({ code := 404, reason := "Document not found" } : Resp).compression
       then (fun s => s)
          (responseStatusAsJson { code := 404, reason := "Document not found" })
       else responseStatusAsJson
          { code := 404, reason := "Document not found" }) ∧
     (makeReply (fun s => s) "yahat test"
        { code := 404, reason := "Document not found" } false RType.GET
        none).contentType =
      some (if mimeTypeOf { code := 404, reason := "Document not found" } ≠ ""
            then mimeTypeOf { code := 404, reason := "Document not found" }
            else "application/json; charset=utf-8")) :=
  ⟨⟨rfl, by decide⟩,
    C8_empty_body_json_status (fun s => s) "yahat test"
      { code := 404, reason := "Document not found" } false RType.GET none rfl
      (by decide)⟩

/-- C8 counterexample: an empty-body response whose `target` is `"x.css"`
gets the canonical JSON body, but the final Content-Type is `text/css`
(the `r.mimeType()` override at HttpServer.cpp:474-476), not
`application/json; charset=utf-8` as the claim states. -/
theorem C8_counterexample :
    ¬ ((makeReply (fun s => s) "yahat test"
          { code := 404, reason := "Not found", target := "x.css" } false
          RType.GET none).body =
        responseStatusAsJson
          { code := 404, reason := "Not found", target := "x.css" } ∧
       (makeReply (fun s => s) "yahat test"
          { code := 404, reason := "Not found", target := "x.css" } false
          RType.GET none).contentType =
        some "application/json; charset=utf-8") := by
  decide

/- ------------------------------------------------------------------ -/
/- Session processing (DoSession, HttpServer.cpp:481-664)             -/
/- ------------------------------------------------------------------ -/

/-- `struct Auth` (include/yahat/HttpServer.h:125-131): the authenticator's
verdict.  `access` defaults to `false`. -/
structure AuthV where
  account : String := ""
  access : Bool := false
deriving DecidableEq

/-- `decompressGzip` (HttpServer.cpp:78-118).  The zlib inflate codec is
external to the model, so the fully inflated content `inflated` is taken as
an input.  The function appends inflate output chunkwise and throws
(`.error`) as soon as the accumulated size exceeds `maxDecompressedBytes`;
since the accumulated size is monotone and ends at `inflated.length`, it
throws exactly when the total inflated size exceeds the cap, and otherwise
returns the inflated content. -/
def decompressGzip (inflated : String) (maxDecompressedBytes : Nat) :
    Except Unit String :=
  if inflated.length > maxDecompressedBytes then .error () else .ok inflated

/-- The subset of `HttpConfig` (include/yahat/HttpServer.h:59-120) read by
one pass of the `DoSession` request loop. -/
structure HttpCfg where
  enable_http_basic_auth : Bool := true
  http_basic_auth_realm : String := ""
  max_decompressed_size : Nat := 10 * 1024 * 1024
  auto_handle_cors : Bool := true
deriving DecidableEq

/-- One parsed request as it enters the body of the `DoSession` loop
(after `http::async_read` and `to_type` have succeeded).  `inflated` is
the oracle for what zlib inflation of `body` produces (only consulted when
`contentEncodingGzip`); `authResult` is the oracle for what the configured
authenticator functor returns for this request. -/
structure SessionInput where
  rtype : RType
  target : List Char
  contentEncodingGzip : Bool
  body : String
  inflated : String
  acceptGzip : Bool
  keepAlive : Bool
  authResult : AuthV
deriving DecidableEq

/-- How one iteration of the `DoSession` loop ends for the client. -/
inductive Outcome
  /-- An exception propagated out of `DoSession` (caught only by the
  logging handler around it in `HttpServer::start`): the session dies and
  nothing is written to the client. -/
  | aborted
  /-- A reply was serialised and written. -/
  | wrote (w : WireReply)
  /-- The response carried a continuation: the session hands the stream
  over and closes afterwards. -/
  | continued
deriving DecidableEq

/-- The observable effects of one iteration of the `DoSession` request
loop. -/
structure StepResult where
  outcome : Outcome
  authenticatorInvoked : Bool
  handlerInvoked : Option Nat
  routeSet : Option (List Char)
deriving DecidableEq

/-- One iteration of the request loop of `DoSession`
(HttpServer.cpp:513-650), from a successfully read request to the reply
write (or death of the session), translated in source order:

1. gzip-coded bodies are inflated with `decompressGzip`; the call is not
   guarded by any `try`, so on overflow the exception propagates and the
   session dies without a reply (lines 540-546);
2. the authenticator functor, when one is configured (`hasAuth`), is
   invoked and its verdict stored into `request.auth` (lines 567-576);
3. an OPTIONS request with `auto_handle_cors` gets a synthesised
   `200 OK` CORS reply (lines 578-592);
4. a request whose `auth.access` is false gets a `401 Access Denied!`
   reply with the `WWW-Authenticate` header when basic auth is enabled
   (lines 594-616);
5. otherwise `HttpServer::onRequest` dispatches to a route handler and the
   reply (or continuation) is processed (lines 625-647).

`handlers` is the handler-behaviour oracle and `compress` the zlib
deflater, as in `onRequest` and `makeReply`. -/
def sessionStep (cfg : HttpCfg) (hasAuth : Bool)
    (handlers : Nat → HBehavior) (routes : Routes) (serverId : String)
    (compress : String → String) (inp : SessionInput) : StepResult :=
  let close0 := !inp.keepAlive
  match (if inp.contentEncodingGzip then
           decompressGzip inp.inflated cfg.max_decompressed_size
         else .ok inp.body) with
  | .error _ =>
    { outcome := .aborted, authenticatorInvoked := false,
      handlerInvoked := none, routeSet := none }
  | .ok _ =>
    let auth := if hasAuth then inp.authResult else {}
    let compression := inp.acceptGzip
    if inp.rtype = RType.OPTIONS ∧ cfg.auto_handle_cors then
      let r : Resp := { code := 200, reason := "OK", cors := true,
                        compression := compression }
      { outcome := .wrote (makeReply compress serverId r close0 inp.rtype none),
        authenticatorInvoked := hasAuth, handlerInvoked := none,
        routeSet := none }
    else if !auth.access then
      let www : Option String :=
        if cfg.enable_http_basic_auth then
          some (if cfg.http_basic_auth_realm ≠ "" then
                  "Basic realm=" ++ cfg.http_basic_auth_realm
                else "Basic")
        else none
      let r : Resp := { code := 401, reason := "Access Denied!",
                        compression := compression,
                        cors := cfg.auto_handle_cors }
      { outcome := .wrote (makeReply compress serverId r close0 inp.rtype www),
        authenticatorInvoked := hasAuth, handlerInvoked := none,
        routeSet := none }
    else
      let d := onRequest handlers routes inp.target
      let close1 := close0 || d.resp.close
      if d.resp.hasContinuation then
        { outcome := .continued, authenticatorInvoked := hasAuth,
          handlerInvoked := d.invoked, routeSet := d.routeSet }
      else
        let r := { d.resp with cors := cfg.auto_handle_cors, compression := compression }
        { outcome := .wrote (makeReply compress serverId r close1 inp.rtype none),
          authenticatorInvoked := hasAuth, handlerInvoked := d.invoked,
          routeSet := d.routeSet }

/-- The status code written to the client by an outcome, when one was
written at all. -/
def statusOf : Outcome → Option Nat
  | .wrote w => some w.code
  | _ => none

/-- Concrete configuration for the session scenarios: cap of 10 bytes on
inflated bodies, basic auth enabled with realm `"r1"`, auto-CORS on. -/
def cfgS : HttpCfg :=
  { enable_http_basic_auth := true, http_basic_auth_realm := "r1",
    max_decompressed_size := 10, auto_handle_cors := true }

/-- A gzip-coded POST whose body inflates to 11 bytes (over the 10-byte
cap of `cfgS`). -/
def inpOverflow : SessionInput :=
  { rtype := RType.POST, target := "/x".data, contentEncodingGzip := true,
    body := "zz", inflated := "0123456789A", acceptGzip := false,
    keepAlive := true, authResult := { access := true } }

/-- An OPTIONS request from an authenticated=false client. -/
def inpOptionsDenied : SessionInput :=
  { rtype := RType.OPTIONS, target := "/x".data,
    contentEncodingGzip := false, body := "", inflated := "",
    acceptGzip := false, keepAlive := true,
    authResult := { account := "bob", access := false } }

/-- C4 (amended): a request whose gzip body would inflate past
`max_decompressed_size` makes `decompressGzip` throw; the exception
propagates out of `DoSession` uncaught, so the session dies without any
reply being written (no 400), without the authenticator being invoked and
without any handler being invoked. -/
theorem C4_decompress_overflow_aborts (cfg : HttpCfg) (hasAuth : Bool)
    (handlers : Nat → HBehavior) (routes : Routes) (serverId : String)
    (compress : String → String) (inp : SessionInput)
    (hgz : inp.contentEncodingGzip = true)
    (hover : inp.inflated.length > cfg.max_decompressed_size) :
    sessionStep cfg hasAuth handlers routes serverId compress inp =
      { outcome := .aborted, authenticatorInvoked := false,
        handlerInvoked := none, routeSet := none } := by
  unfold sessionStep
  rw [if_pos hgz]
  unfold decompressGzip
  rw [if_pos hover]

theorem C4_decompress_overflow_aborts_witness :
    (inpOverflow.contentEncodingGzip = true ∧
      inpOverflow.inflated.length > cfgS.max_decompressed_size) ∧
    sessionStep cfgS true (fun _ => .ret {}) [] "yahat test" (fun s => s)
        inpOverflow =
      { outcome := .aborted, authenticatorInvoked := false,
        handlerInvoked := none, routeSet := none } :=
  ⟨⟨rfl, by decide⟩,
    C4_decompress_overflow_aborts cfgS true (fun _ => .ret {}) [] "yahat test"
      (fun s => s) inpOverflow rfl (by decide)⟩

/-- C4 counterexample: for the oversized gzip request `inpOverflow` the
session writes nothing at all — in particular it does not respond 400 as
the claim states (the status of the outcome is `none`, not `some 400`). -/
theorem C4_counterexample :
    ¬ statusOf (sessionStep cfgS true (fun _ => .ret {}) [] "yahat test"
        (fun s => s) inpOverflow).outcome = some 400 := by
  decide

/-- C5 (amended): for every request for which the configured authenticator
returns `access=false` — other than an OPTIONS request with
`auto_handle_cors` enabled, which is short-circuited into the 200 CORS
reply before the access check, and a request aborted by gzip-overflow —
no route handler is invoked and the reply is `401 Access Denied!`; when
basic auth is enabled its `WWW-Authenticate` header is
`Basic realm=<realm>` with a configured realm and `Basic` without one,
and no such header is set when basic auth is disabled. -/
theorem C5_auth_gate_401 (cfg : HttpCfg) (handlers : Nat → HBehavior)
    (routes : Routes) (serverId : String) (compress : String → String)
    (inp : SessionInput) (hDeny : inp.authResult.access = false)
    (hNoOver : ¬(inp.contentEncodingGzip = true ∧
      inp.inflated.length > cfg.max_decompressed_size))
    (hNotCors : ¬(inp.rtype = RType.OPTIONS ∧ cfg.auto_handle_cors = true)) :
    (sessionStep cfg true handlers routes serverId compress inp).handlerInvoked
        = none ∧
    ∃ w, (sessionStep cfg true handlers routes serverId compress inp).outcome
        = .wrote w ∧
      w.code = 401 ∧ w.reason = "Access Denied!" ∧
      w.wwwAuthenticate =
        (if cfg.enable_http_basic_auth then
          some (if cfg.http_basic_auth_realm ≠ "" then
                  "Basic realm=" ++ cfg.http_basic_auth_realm
                else "Basic")
         else none) := by
  unfold sessionStep
  by_cases hg : inp.contentEncodingGzip
  · rw [if_pos hg]
    unfold decompressGzip
    have hle : ¬ inp.inflated.length > cfg.max_decompressed_size :=
      fun hcon => hNoOver ⟨hg, hcon⟩
    rw [if_neg hle]
    dsimp only
    rw [if_neg (by simpa using hNotCors), if_pos (by simp [hDeny])]
    exact ⟨rfl, _, rfl, rfl, rfl, rfl⟩
  · rw [if_neg hg]
    dsimp only
    rw [if_neg (by simpa using hNotCors), if_pos (by simp [hDeny])]
    exact ⟨rfl, _, rfl, rfl, rfl, rfl⟩

/-- A plain GET from an unauthenticated client, used to exercise the
401 path. -/
def inpGetDenied : SessionInput :=
  { rtype := RType.GET, target := "/x".data, contentEncodingGzip := false,
    body := "", inflated := "", acceptGzip := false, keepAlive := true,
    authResult := { account := "bob", access := false } }

theorem C5_auth_gate_401_witness :
    (inpGetDenied.authResult.access = false ∧
      ¬(inpGetDenied.contentEncodingGzip = true ∧
        inpGetDenied.inflated.length > cfgS.max_decompressed_size) ∧
      ¬(inpGetDenied.rtype = RType.OPTIONS ∧ cfgS.auto_handle_cors = true)) ∧
    ((sessionStep cfgS true (fun _ => .ret {}) [] "yahat test" (fun s => s)
        inpGetDenied).handlerInvoked = none ∧
    ∃ w, (sessionStep cfgS true (fun _ => .ret {}) [] "yahat test"
        (fun s => s) inpGetDenied).outcome = .wrote w ∧
      w.code = 401 ∧ w.reason = "Access Denied!" ∧
      w.wwwAuthenticate =
        (if cfgS.enable_http_basic_auth then
          some (if cfgS.http_basic_auth_realm ≠ "" then
                  "Basic realm=" ++ cfgS.http_basic_auth_realm
                else "Basic")
         else none)) :=
  ⟨⟨rfl, by decide, by decide⟩,
    C5_auth_gate_401 cfgS (fun _ => .ret {}) [] "yahat test" (fun s => s)
      inpGetDenied rfl (by decide) (by decide)⟩

/-- C5 counterexample: the authenticator returns `access=false` for the
OPTIONS request `inpOptionsDenied`, but with `auto_handle_cors` enabled the
session never reaches the access check (HttpServer.cpp:578 precedes 594):
the written status is 200, not 401 as the claim states for every denied
request. -/
theorem C5_counterexample :
    ¬ statusOf (sessionStep cfgS true (fun _ => .ret {}) [] "yahat test"
        (fun s => s) inpOptionsDenied).outcome = some 401 := by
  decide

/-- C6 (amended): an OPTIONS request while `auto_handle_cors` is true (and
not aborted by gzip overflow) is answered directly with a synthesised
`200 OK` reply that carries the four permissive CORS headers and an empty
body, without invoking any route handler — but the authenticator, when one
is configured, has already been invoked before the OPTIONS check
(HttpServer.cpp:567-576 precede 578). -/
theorem C6_options_cors_bypass (cfg : HttpCfg) (hasAuth : Bool)
    (handlers : Nat → HBehavior) (routes : Routes) (serverId : String)
    (compress : String → String) (inp : SessionInput)
    (hOpt : inp.rtype = RType.OPTIONS) (hCors : cfg.auto_handle_cors = true)
    (hNoOver : ¬(inp.contentEncodingGzip = true ∧
      inp.inflated.length > cfg.max_decompressed_size)) :
    (sessionStep cfg hasAuth handlers routes serverId compress
        inp).handlerInvoked = none ∧
    (sessionStep cfg hasAuth handlers routes serverId compress
        inp).authenticatorInvoked = hasAuth ∧
    ∃ w, (sessionStep cfg hasAuth handlers routes serverId compress
        inp).outcome = .wrote w ∧
      w.code = 200 ∧ w.reason = "OK" ∧ w.body = "" ∧
      w.corsHeaders = some corsHeaderList ∧ w.contentType = none := by
  have hbr : ∀ close www,
      makeReply compress serverId
        { code := 200, reason := "OK", cors := true,
          compression := inp.acceptGzip } close inp.rtype www =
      { code := 200, reason := "OK", body := "", contentType := none,
        contentEncodingGzip := false, server := serverId,
        connection := if close then "close" else "keep-alive",
        corsHeaders := some corsHeaderList, setCookies := [],
        wwwAuthenticate := www } := by
    intro close www
    unfold makeReply
    rw [hOpt]
    simp [mimeTypeOf]
  unfold sessionStep
  by_cases hg : inp.contentEncodingGzip
  · rw [if_pos hg]
    unfold decompressGzip
    have hle : ¬ inp.inflated.length > cfg.max_decompressed_size :=
      fun hcon => hNoOver ⟨hg, hcon⟩
    rw [if_neg hle]
    dsimp only
    rw [if_pos ⟨hOpt, by simp [hCors]⟩, hbr]
    exact ⟨rfl, rfl, _, rfl, rfl, rfl, rfl, rfl, rfl⟩
  · rw [if_neg hg]
    dsimp only
    rw [if_pos ⟨hOpt, by simp [hCors]⟩, hbr]
    exact ⟨rfl, rfl, _, rfl, rfl, rfl, rfl, rfl, rfl⟩

theorem C6_options_cors_bypass_witness :
    (inpOptionsDenied.rtype = RType.OPTIONS ∧
      cfgS.auto_handle_cors = true ∧
      ¬(inpOptionsDenied.contentEncodingGzip = true ∧
        inpOptionsDenied.inflated.length > cfgS.max_decompressed_size)) ∧
    ((sessionStep cfgS true (fun _ => .ret {}) [] "yahat test" (fun s => s)
        inpOptionsDenied).handlerInvoked = none ∧
    (sessionStep cfgS true (fun _ => .ret {}) [] "yahat test" (fun s => s)
        inpOptionsDenied).authenticatorInvoked = true ∧
    ∃ w, (sessionStep cfgS true (fun _ => .ret {}) [] "yahat test"
        (fun s => s) inpOptionsDenied).outcome = .wrote w ∧
      w.code = 200 ∧ w.reason = "OK" ∧ w.body = "" ∧
      w.corsHeaders = some corsHeaderList ∧ w.contentType = none) :=
  ⟨⟨rfl, rfl, by decide⟩,
    C6_options_cors_bypass cfgS true (fun _ => .ret {}) [] "yahat test"
      (fun s => s) inpOptionsDenied rfl rfl (by decide)⟩

/-- C6 counterexample: for the OPTIONS request `inpOptionsDenied` with a
configured authenticator, the authenticator *is* invoked (the code runs it
at HttpServer.cpp:567-576, before the OPTIONS/CORS check at line 578),
contradicting the claim's "without invoking the authenticator". -/
theorem C6_counterexample :
    ¬ (sessionStep cfgS true (fun _ => .ret {}) [] "yahat test" (fun s => s)
        inpOptionsDenied).authenticatorInvoked = false := by
  decide

/- ------------------------------------------------------------------ -/
/- Metrics registry (include/yahat/Metrics.h, src/Metrics.cpp)        -/
/- ------------------------------------------------------------------ -/

/-- Lexicographic comparison of character lists by character code: the
order of `std::string::operator<` used both by `std::sort` in
`Metrics::DataType::makeLabels` and by the `std::map` holding the
registry. -/
def clLt : List Char → List Char → Bool
  | [], [] => false
  | [], _ :: _ => true
  | _ :: _, [] => false
  | a :: as, b :: bs =>
    if a.toNat < b.toNat then true
    else if b.toNat < a.toNat then false
    else clLt as bs

/-- `std::string` comparison. -/
def strLt (a b : String) : Bool := clLt a.data b.data

theorem clLt_irrefl : ∀ a, clLt a a = false
  | [] => rfl
  | a :: as => by
    unfold clLt
    rw [if_neg (lt_irrefl a.toNat), if_neg (lt_irrefl a.toNat)]
    exact clLt_irrefl as

theorem clLt_asymm : ∀ a b, clLt a b = true → clLt b a = false
  | [], [], h => by simp [clLt] at h
  | [], _ :: _, _ => rfl
  | _ :: _, [], h => by simp [clLt] at h
  | a :: as, b :: bs, h => by
    unfold clLt at h ⊢
    by_cases h1 : a.toNat < b.toNat
    · rw [if_neg (Nat.lt_asymm h1), if_pos h1]
    · rw [if_neg h1] at h
      by_cases h2 : b.toNat < a.toNat
      · rw [if_pos h2] at h; exact absurd h (by simp)
      · rw [if_neg h2] at h
        rw [if_neg h2, if_neg h1]
        exact clLt_asymm as bs h

theorem clLt_trans : ∀ a b c, clLt a b = true → clLt b c = true →
    clLt a c = true
  | [], b, c, h1, h2 => by
    cases c with
    | nil =>
      cases b with
      | nil => simp [clLt] at h1
      | cons bh bt => simp [clLt] at h2
    | cons ch ct => rfl
  | ah :: as, b, c, h1, h2 => by
    cases b with
    | nil => simp [clLt] at h1
    | cons bh bs =>
      cases c with
      | nil => simp [clLt] at h2
      | cons ch cs =>
        unfold clLt at h1 h2 ⊢
        by_cases e1 : ah.toNat < bh.toNat
        · by_cases e2 : bh.toNat < ch.toNat
          · rw [if_pos (Nat.lt_trans e1 e2)]
          · rw [if_neg e2] at h2
            by_cases e3 : ch.toNat < bh.toNat
            · rw [if_pos e3] at h2; exact absurd h2 (by simp)
            · have heq : bh.toNat = ch.toNat :=
                Nat.le_antisymm (Nat.le_of_not_lt e3) (Nat.le_of_not_lt e2)
              rw [if_pos (heq ▸ e1)]
        · rw [if_neg e1] at h1
          by_cases e4 : bh.toNat < ah.toNat
          · rw [if_pos e4] at h1; exact absurd h1 (by simp)
          · rw [if_neg e4] at h1
            have heqab : ah.toNat = bh.toNat :=
              Nat.le_antisymm (Nat.le_of_not_lt e4) (Nat.le_of_not_lt e1)
            by_cases e2 : bh.toNat < ch.toNat
            · rw [if_pos (heqab ▸ e2)]
            · rw [if_neg e2] at h2
              by_cases e3 : ch.toNat < bh.toNat
              · rw [if_pos e3] at h2; exact absurd h2 (by simp)
              · rw [if_neg e3] at h2
                have heqbc : bh.toNat = ch.toNat :=
                  Nat.le_antisymm (Nat.le_of_not_lt e3) (Nat.le_of_not_lt e2)
                rw [if_neg (by rw [heqab, heqbc]; exact lt_irrefl _),
                  if_neg (by rw [heqab, heqbc]; exact lt_irrefl _)]
                exact clLt_trans as bs cs h1 h2

theorem clLt_eq_of_not_lt : ∀ a b, clLt a b = false → clLt b a = false →
    a = b
  | [], [], _, _ => rfl
  | [], _ :: _, h1, _ => by simp [clLt] at h1
  | _ :: _, [], _, h2 => by simp [clLt] at h2
  | ah :: as, bh :: bs, h1, h2 => by
    unfold clLt at h1 h2
    by_cases e1 : ah.toNat < bh.toNat
    · rw [if_pos e1] at h1; exact absurd h1 (by simp)
    · by_cases e2 : bh.toNat < ah.toNat
      · rw [if_pos e2] at h2; exact absurd h2 (by simp)
      · rw [if_neg e1, if_neg e2] at h1
        rw [if_neg e2, if_neg e1] at h2
        have heq : ah = bh :=
          Char.eq_of_val_eq (UInt32.ext
            (Nat.le_antisymm (Nat.le_of_not_lt e2) (Nat.le_of_not_lt e1)))
        rw [heq, clLt_eq_of_not_lt as bs h1 h2]

theorem strLt_asymm (a b : String) (h : strLt a b = true) : strLt b a = false :=
  clLt_asymm a.data b.data h

theorem strLt_trans (a b c : String) (h1 : strLt a b = true)
    (h2 : strLt b c = true) : strLt a c = true :=
  clLt_trans a.data b.data c.data h1 h2

theorem strLt_eq_of_not_lt (a b : String) (h1 : strLt a b = false)
    (h2 : strLt b a = false) : a = b :=
  String.ext (clLt_eq_of_not_lt a.data b.data h1 h2)

theorem strLt_irrefl (a : String) : strLt a a = false :=
  clLt_irrefl a.data

/-- The non-strict closure of the `std::sort` comparator
`a.first < b.first` of `Metrics::DataType::makeLabels`
(Metrics.cpp:143-150): `a` may precede `b` iff `b.first < a.first` is
false. -/
def labelLe (a b : String × String) : Prop := strLt b.1 a.1 = false

instance : DecidableRel labelLe := fun a b => by
  unfold labelLe; infer_instance

instance : IsTotal (String × String) labelLe :=
  ⟨fun a b => by
    unfold labelLe
    cases h : strLt b.1 a.1
    · exact Or.inl rfl
    · exact Or.inr (strLt_asymm b.1 a.1 h)⟩

instance : IsTrans (String × String) labelLe :=
  ⟨fun a b c h1 h2 => by
    unfold labelLe at h1 h2 ⊢
    cases hca : strLt c.1 a.1
    · rfl
    · exfalso
      cases hbc : strLt b.1 c.1
      · have : b.1 = c.1 := strLt_eq_of_not_lt b.1 c.1 hbc h2
        rw [this] at h1
        rw [h1] at hca
        exact Bool.noConfusion hca
      · have : strLt b.1 a.1 = true := strLt_trans b.1 c.1 a.1 hbc hca
        rw [this] at h1
        exact Bool.noConfusion h1⟩

/-- The strict key order on label pairs, used to state that a
duplicate-free label list has exactly one sorted arrangement. -/
def labelLt (a b : String × String) : Prop := strLt a.1 b.1 = true

instance : IsAntisymm (String × String) labelLt :=
  ⟨fun a b h1 h2 => by
    unfold labelLt at h1 h2
    rw [strLt_asymm a.1 b.1 h1] at h2
    exact Bool.noConfusion h2⟩

/-- `Metrics::DataType::makeLabels` (Metrics.cpp:143-150): sort the label
list by label key (`std::sort` with comparator `a.first < b.first`).
`std::sort` leaves the relative order of equal keys unspecified; insertion
sort by the comparator's non-strict closure realises one valid execution,
and for the duplicate-key-free lists the registry semantics depends on,
every valid execution produces this same, unique, key-sorted
arrangement. -/
def makeLabels (source : List (String × String)) : List (String × String) :=
  List.insertionSort labelLe source

theorem makeLabels_perm (l : List (String × String)) :
    (makeLabels l).Perm l :=
  List.perm_insertionSort labelLe l

theorem makeLabels_sorted (l : List (String × String)) :
    List.Sorted labelLe (makeLabels l) :=
  List.sorted_insertionSort labelLe l

theorem sorted_strict_of_nodup_keys {l : List (String × String)}
    (hs : List.Sorted labelLe l) (hnd : (l.map Prod.fst).Nodup) :
    List.Pairwise labelLt l := by
  have hne : List.Pairwise (fun a b : String × String => a.1 ≠ b.1) l :=
    List.pairwise_map.mp hnd
  exact (hs.and hne).imp (fun {a b} h => by
    obtain ⟨hle, hne'⟩ := h
    unfold labelLe at hle
    unfold labelLt
    cases hab : strLt a.1 b.1
    · exact absurd (strLt_eq_of_not_lt a.1 b.1 hab hle) hne'
    · rfl)

/-- For label lists with pairwise-distinct keys, sorting by key is
canonical: any two permutations of the same labels sort identically
(C7's key-canonicalisation core). -/
theorem makeLabels_eq_of_perm {L1 L2 : List (String × String)}
    (hperm : L1.Perm L2) (hnd : (L1.map Prod.fst).Nodup) :
    makeLabels L1 = makeLabels L2 := by
  have hnd1 : ((makeLabels L1).map Prod.fst).Nodup :=
    (((makeLabels_perm L1).map Prod.fst).nodup_iff).mpr hnd
  have hnd2 : ((makeLabels L2).map Prod.fst).Nodup := by
    have : (L2.map Prod.fst).Nodup :=
      ((hperm.map Prod.fst).nodup_iff).mp hnd
    exact (((makeLabels_perm L2).map Prod.fst).nodup_iff).mpr this
  have hp : (makeLabels L1).Perm (makeLabels L2) :=
    ((makeLabels_perm L1).trans hperm).trans (makeLabels_perm L2).symm
  exact List.eq_of_perm_of_sorted hp
    (sorted_strict_of_nodup_keys (makeLabels_sorted L1) hnd1)
    (sorted_strict_of_nodup_keys (makeLabels_sorted L2) hnd2)

/-- `Metrics::DataType::Type` restricted to the metric kinds modelled here
(Counter, Gauge and Info render one instance line each; they are the kinds
exercised by the registry-level claims). -/
inductive MKind
  | counter
  | gauge
  | info
deriving DecidableEq

/-- `typeName()` (Metrics.cpp:65-72). -/
def typeName : MKind → String
  | .counter => "counter"
  | .gauge => "gauge"
  | .info => "info"

/-- A registered metric node (`Metrics::DataType` and the value state of
its subclass).  `labels` is the ctor-sorted label list; `value` the
current counter/gauge value; `created` the `_created` timestamp as it is
rendered by `renderCreated` (a wall-clock input, carried as the digits
produced for it). -/
structure Metric where
  kind : MKind
  name : String
  help : String
  unitText : String
  labels : List (String × String)
  value : Nat
  created : String
deriving DecidableEq

/-- The `DataType` constructor (Metrics.cpp:61-63): stores the
`makeLabels`-sorted label list. -/
def mkMetric (kind : MKind) (name help unitText : String)
    (labels : List (String × String)) (value : Nat) (created : String) :
    Metric :=
  { kind := kind, name := name, help := help, unitText := unitText,
    labels := makeLabels labels, value := value, created := created }

/-- `Metrics::DataType::makeNameWithSuffixAndLabels` (Metrics.cpp:93-117):
`"#" + name` when `first`, `"_" + suffix` when a suffix is given, then the
label list rendered as `\x7bk="v",...\x7d` when non-empty. -/
def makeNWSL (name suffix : String) (labels : List (String × String))
    (first : Bool) : String :=
  let r0 := if first then "#" ++ name else name
  let r1 := if suffix = "" then r0 else r0 ++ "_" ++ suffix
  if labels = [] then r1
  else
    r1 ++ "\x7b" ++
      String.intercalate "," (labels.map (fun l => l.1 ++ "=\"" ++ l.2 ++ "\"")) ++
      "\x7d"

/-- `Metrics::DataType::makeKey` (Metrics.cpp:83-86): the registry key;
`first` is true exactly for `Type::Info` so Info keys are prefixed with
`'#'` and sort to the top of the map. -/
def makeKey (name : String) (labels : List (String × String))
    (ty : Option MKind) : String :=
  makeNWSL name "" labels
    (match ty with
     | some MKind.info => true
     | _ => false)

/-- The registry map `std::map<std::string, std::unique_ptr<DataType>>`
(Metrics.h:990), modelled as its entry list in ascending key order. -/
abbrev Reg := List (String × Metric)

/-- The registry's map invariant: keys strictly ascending. -/
def RegSorted (reg : Reg) : Prop :=
  List.Pairwise (fun a b : String × Metric => strLt a.1 b.1 = true) reg

instance (reg : Reg) : Decidable (RegSorted reg) := by
  unfold RegSorted; infer_instance

/-- `metrics_.emplace(key, ...)` (Metrics.h:923): insert at the key's
ordered position; when the key is already present the map is left
unchanged and the insertion reports failure. -/
def insertIfAbsent : Reg → String → Metric → Reg × Bool
  | [], k, m => ([(k, m)], true)
  | (k', m') :: rest, k, m =>
    if strLt k k' then ((k, m) :: (k', m') :: rest, true)
    else if k = k' then ((k', m') :: rest, false)
    else
      let r := insertIfAbsent rest k m
      ((k', m') :: r.1, r.2)

theorem insertIfAbsent_elem : ∀ (reg : Reg) (k : String) (m : Metric)
    (x : String × Metric), x ∈ (insertIfAbsent reg k m).1 →
    x ∈ reg ∨ x = (k, m)
  | [], k, m, x, hx => by
    simp [insertIfAbsent] at hx
    exact Or.inr hx
  | (k', m') :: rest, k, m, x, hx => by
    unfold insertIfAbsent at hx
    by_cases h1 : strLt k k'
    · rw [if_pos h1] at hx
      rcases List.mem_cons.mp hx with he | ht
      · exact Or.inr he
      · exact Or.inl ht
    · rw [if_neg h1] at hx
      by_cases h2 : k = k'
      · rw [if_pos h2] at hx
        exact Or.inl hx
      · rw [if_neg h2] at hx
        rcases List.mem_cons.mp hx with he | ht
        · exact Or.inl (he ▸ List.mem_cons_self _ _)
        · rcases insertIfAbsent_elem rest k m x ht with h | h
          · exact Or.inl (List.mem_cons_of_mem _ h)
          · exact Or.inr h

theorem insertIfAbsent_mem_keys : ∀ (reg : Reg) (k : String) (m : Metric),
    k ∈ (insertIfAbsent reg k m).1.map Prod.fst
  | [], k, m => by simp [insertIfAbsent]
  | (k', m') :: rest, k, m => by
    unfold insertIfAbsent
    by_cases h1 : strLt k k'
    · rw [if_pos h1]; simp
    · rw [if_neg h1]
      by_cases h2 : k = k'
      · rw [if_pos h2]; simp [h2]
      · rw [if_neg h2]
        simpa using Or.inr (insertIfAbsent_mem_keys rest k m)

theorem insertIfAbsent_sorted : ∀ (reg : Reg) (k : String) (m : Metric),
    RegSorted reg → RegSorted (insertIfAbsent reg k m).1
  | [], k, m, _ => by simp [insertIfAbsent, RegSorted]
  | (k', m') :: rest, k, m, hs => by
    rw [RegSorted, List.pairwise_cons] at hs
    obtain ⟨hhead, htail⟩ := hs
    unfold insertIfAbsent
    by_cases h1 : strLt k k'
    · rw [if_pos h1]
      rw [RegSorted, List.pairwise_cons]
      refine ⟨?_, List.Pairwise.cons hhead htail⟩
      intro x hx
      rcases List.mem_cons.mp hx with he | ht
      · rw [he]; exact h1
      · exact strLt_trans _ _ _ h1 (hhead x ht)
    · rw [if_neg h1]
      by_cases h2 : k = k'
      · rw [if_pos h2]
        exact List.Pairwise.cons hhead htail
      · rw [if_neg h2]
        have hgt : strLt k' k = true := by
          cases hkk : strLt k k'
          · cases hk'k : strLt k' k
            · exact absurd (strLt_eq_of_not_lt k k' hkk hk'k) h2
            · rfl
          · exact absurd hkk (by simp [h1])
        rw [RegSorted, List.pairwise_cons]
        constructor
        · intro x hx
          rcases insertIfAbsent_elem rest k m x hx with h | h
          · exact hhead x h
          · rw [h]; exact hgt
        · exact insertIfAbsent_sorted rest k m htail

theorem insertIfAbsent_found : ∀ (reg : Reg) (k : String) (m : Metric),
    RegSorted reg → k ∈ reg.map Prod.fst →
    insertIfAbsent reg k m = (reg, false)
  | [], _, _, _, hk => by simp at hk
  | (k', m') :: rest, k, m, hs, hk => by
    rw [RegSorted, List.pairwise_cons] at hs
    obtain ⟨hhead, htail⟩ := hs
    unfold insertIfAbsent
    by_cases h2 : k = k'
    · rw [if_neg (by rw [h2]; simp [strLt_irrefl]), if_pos h2]
    · have hkrest : k ∈ rest.map Prod.fst := by
        rcases (by simpa using hk : k = k' ∨ k ∈ rest.map Prod.fst) with h | h
        · exact absurd h h2
        · exact h
      have hgt : strLt k' k = true := by
        obtain ⟨x, hxmem, hxk⟩ := List.mem_map.mp hkrest
        have := hhead x hxmem
        rw [hxk] at this
        exact this
      rw [if_neg (by simp [strLt_asymm k' k hgt]), if_neg h2,
        insertIfAbsent_found rest k m htail hkrest]

/-- `Metrics::AddMetric` (Metrics.h:917-925): construct the metric (its
ctor sorts the labels), compute the key from name, sorted labels and type,
and `emplace` it.  The C++ code ignores the emplace result and returns the
raw pointer unconditionally; the returned flag is the emplace result the
code discards. -/
def addMetric (reg : Reg) (kind : MKind) (name help unitText : String)
    (labels : List (String × String)) (value : Nat) (created : String) :
    Reg × Bool :=
  let m := mkMetric kind name help unitText labels value created
  insertIfAbsent reg (makeKey m.name m.labels (some m.kind)) m

/-- `Metrics::AddMetric` with its exception behaviour made explicit: the
function body contains no duplicate check and no throw, so it always
completes normally (`.ok`); a duplicate key leaves the map unchanged
silently. -/
def addMetricE (reg : Reg) (kind : MKind) (name help unitText : String)
    (labels : List (String × String)) (value : Nat) (created : String) :
    Except Unit (Reg × Bool) :=
  .ok (addMetric reg kind name help unitText labels value created)

/-- `Metrics::clone` (Metrics.h:936-948): build a metric with the same
name/help/unit but new labels, `emplace` it, and throw
`std::invalid_argument` when the key was already present. -/
def cloneMetric (reg : Reg) (src : Metric)
    (labels : List (String × String)) (created : String) :
    Except Unit Reg :=
  let m := mkMetric src.kind src.name src.help src.unitText labels 0 created
  match insertIfAbsent reg (makeKey m.name m.labels (some m.kind)) m with
  | (reg', true) => .ok reg'
  | (_, false) => .error ()

instance {α β : Type} [DecidableEq α] [DecidableEq β] :
    DecidableEq (Except α β) := fun a b =>
  match a, b with
  | .ok x, .ok y =>
    if h : x = y then .isTrue (h ▸ rfl)
    else .isFalse (fun hc => h (by injection hc))
  | .error x, .error y =>
    if h : x = y then .isTrue (h ▸ rfl)
    else .isFalse (fun hc => h (by injection hc))
  | .ok _, .error _ => .isFalse (fun hc => Except.noConfusion hc)
  | .error _, .ok _ => .isFalse (fun hc => Except.noConfusion hc)

/-- C7 (amended): for any metric name and any two permutations of the same
duplicate-key-free label set, the registry keys are equal; consequently a
second `AddMetric` with the permuted labels finds the key occupied and
leaves the registry unchanged — but it surfaces no failure to the caller
(it completes normally; the emplace result is discarded).  Only
`Metrics::clone` turns the duplicate into a precondition failure
(`std::invalid_argument`). -/
theorem C7_label_order_canonical_keys (reg : Reg) (kind : MKind)
    (name help unitText : String) (L1 L2 : List (String × String))
    (v v2 : Nat) (cr cr2 : String) (hs : RegSorted reg)
    (hperm : L1.Perm L2) (hnd : (L1.map Prod.fst).Nodup) :
    makeKey name (makeLabels L1) (some kind) =
      makeKey name (makeLabels L2) (some kind) ∧
    addMetricE (addMetric reg kind name help unitText L1 v cr).1 kind name
        help unitText L2 v2 cr2 =
      .ok ((addMetric reg kind name help unitText L1 v cr).1, false) ∧
    cloneMetric (addMetric reg kind name help unitText L1 v cr).1
        (mkMetric kind name help unitText L1 v cr) L2 cr2 = .error () := by
  have hkeyeq : makeKey name (makeLabels L1) (some kind) =
      makeKey name (makeLabels L2) (some kind) := by
    rw [makeLabels_eq_of_perm hperm hnd]
  have hsorted1 : RegSorted (addMetric reg kind name help unitText L1 v cr).1 :=
    insertIfAbsent_sorted reg _ _ hs
  have hmem : makeKey name (makeLabels L1) (some kind) ∈
      (addMetric reg kind name help unitText L1 v cr).1.map Prod.fst := by
    unfold addMetric
    exact insertIfAbsent_mem_keys reg _ _
  refine ⟨hkeyeq, ?_, ?_⟩
  · unfold addMetricE
    conv_lhs =>
      rw [show addMetric (addMetric reg kind name help unitText L1 v cr).1
          kind name help unitText L2 v2 cr2 =
        insertIfAbsent (addMetric reg kind name help unitText L1 v cr).1
          (makeKey name (makeLabels L2) (some kind))
          (mkMetric kind name help unitText L2 v2 cr2) from rfl]
      rw [← hkeyeq, insertIfAbsent_found _ _ _ hsorted1 hmem]
  · rw [show cloneMetric (addMetric reg kind name help unitText L1 v cr).1
        (mkMetric kind name help unitText L1 v cr) L2 cr2 =
      (match insertIfAbsent (addMetric reg kind name help unitText L1 v cr).1
          (makeKey name (makeLabels L2) (some kind))
          (mkMetric kind name help unitText L2 0 cr2) with
       | (reg', true) => Except.ok reg'
       | (_, false) => Except.error ()) from rfl]
    rw [← hkeyeq, insertIfAbsent_found _ _ _ hsorted1 hmem]

theorem C7_label_order_canonical_keys_witness :
    (RegSorted ([] : Reg) ∧
      ([("a", "1"), ("b", "2")] : List (String × String)).Perm
        [("b", "2"), ("a", "1")] ∧
      (([("a", "1"), ("b", "2")] : List (String × String)).map
        Prod.fst).Nodup) ∧
    (makeKey "m" (makeLabels [("a", "1"), ("b", "2")]) (some .counter) =
      makeKey "m" (makeLabels [("b", "2"), ("a", "1")]) (some .counter) ∧
    addMetricE (addMetric [] .counter "m" "h" "" [("a", "1"), ("b", "2")]
        0 "1.0").1 .counter "m" "h" "" [("b", "2"), ("a", "1")] 0 "2.0" =
      .ok ((addMetric [] .counter "m" "h" "" [("a", "1"), ("b", "2")]
        0 "1.0").1, false) ∧
    cloneMetric (addMetric [] .counter "m" "h" "" [("a", "1"), ("b", "2")]
        0 "1.0").1
        (mkMetric .counter "m" "h" "" [("a", "1"), ("b", "2")] 0 "1.0")
        [("b", "2"), ("a", "1")] "2.0" = .error ()) :=
  ⟨⟨by decide, by decide, by decide⟩,
    C7_label_order_canonical_keys [] .counter "m" "h" ""
      [("a", "1"), ("b", "2")] [("b", "2"), ("a", "1")] 0 0 "1.0" "2.0"
      (by decide) (by decide) (by decide)⟩

/-- C7 counterexample: registering `m` with labels `a="1",b="2"` and then
a second metric with the permuted label set does *not* surface a
precondition failure: `AddMetric` completes normally — there is no
duplicate check and no throw in it (the emplace result is discarded,
Metrics.h:923-924) — silently leaving the registry unchanged. -/
theorem C7_counterexample :
    ¬ addMetricE (addMetric [] .counter "m" "h" "" [("a", "1"), ("b", "2")]
        0 "1.0").1 .counter "m" "h" "" [("b", "2"), ("a", "1")] 0 "2.0" =
      .error () := by
  decide

/-- One line of `Metrics::generate` output (Metrics.cpp:20-59): the
`# HELP`/`# TYPE`/`# UNIT` meta lines and the instance lines produced by
`DataType::render`; each carries the metric that emitted it. -/
inductive RLine
  | helpLine (m : Metric)
  | typeLine (m : Metric)
  | unitLine (m : Metric)
  | instLine (m : Metric) (text : String)
deriving DecidableEq

/-- The metric a line was emitted for. -/
def lineMetric : RLine → Metric
  | .helpLine m => m
  | .typeLine m => m
  | .unitLine m => m
  | .instLine m _ => m

def isMetaLine : RLine → Bool
  | .helpLine _ => true
  | .typeLine _ => true
  | .unitLine _ => true
  | .instLine _ _ => false

def isTypeOf (f : String) : RLine → Bool
  | .typeLine m => decide (m.name = f)
  | _ => false

def isHelpOf (f : String) : RLine → Bool
  | .helpLine m => decide (m.name = f)
  | _ => false

/-- The single instance line rendered by `Counter::render`
(Metrics.h:256-260), `Gauge::render` (Metrics.h:304-308) and
`Info::render` (Metrics.h:331-334): the suffixed metric name with labels,
the value (`renderNumber` of a `uint64_t` prints the plain integer; Info
always prints `1`), and the `_created` timestamp appended by
`renderCreated(postfix=true)`. -/
def instText (m : Metric) : String :=
  match m.kind with
  | .counter =>
    makeNWSL m.name "total" m.labels false ++ " " ++ toString m.value ++
      " " ++ m.created
  | .gauge =>
    makeNWSL m.name "" m.labels false ++ " " ++ toString m.value ++
      " " ++ m.created
  | .info =>
    makeNWSL m.name "info" m.labels false ++ " 1 " ++ m.created

/-- `metric->render(target)` for the modelled kinds: one instance line. -/
def renderM (m : Metric) : List RLine := [RLine.instLine m (instText m)]

/-- The meta lines emitted when `generate` enters a new family
(Metrics.cpp:42-55): `# HELP` when the help text is non-empty, always
`# TYPE`, `# UNIT` when the unit is non-empty. -/
def metaLines (m : Metric) : List RLine :=
  (if m.help = "" then [] else [RLine.helpLine m]) ++ [RLine.typeLine m] ++
    (if m.unitText = "" then [] else [RLine.unitLine m])

/-- The loop of `Metrics::generate` (Metrics.cpp:36-58): walk the metrics
in map order with a `current_family` accumulator; emit the meta lines when
the name differs from the current family, then the metric's render
output.  The initial `current_family` is the empty string view. -/
def generateGo : String → List Metric → List RLine
  | _, [] => []
  | fam, m :: rest =>
    if fam = m.name then renderM m ++ generateGo fam rest
    else metaLines m ++ renderM m ++ generateGo m.name rest

/-- `Metrics::generate` over the registry's value sequence (the pointer
snapshot is taken in map order, Metrics.cpp:26-34). -/
def generate (reg : Reg) : List RLine :=
  generateGo "" (reg.map Prod.snd)

/-- The text of one output line (without its trailing newline). -/
def lineText : RLine → String
  | .helpLine m => "# HELP " ++ m.name ++ " " ++ m.help
  | .typeLine m => "# TYPE " ++ m.name ++ " " ++ typeName m.kind
  | .unitLine m => "# UNIT " ++ m.name ++ " " ++ m.unitText
  | .instLine _ t => t

/-- The character stream `Metrics::generate` writes: each line followed by
`'\n'`. -/
def generateChars (reg : Reg) : List Char :=
  ((generate reg).map (fun l => (lineText l).data ++ ['\n'])).flatten

/-- The names at the run boundaries of the generate loop: the names for
which a fresh block of meta lines is emitted, starting from current
family `fam`. -/
def runStarts : String → List Metric → List String
  | _, [] => []
  | fam, m :: rest =>
    if fam = m.name then runStarts fam rest
    else m.name :: runStarts m.name rest

theorem mem_metaLines {l : RLine} {m : Metric} (h : l ∈ metaLines m) :
    lineMetric l = m ∧ isMetaLine l = true := by
  unfold metaLines at h
  rcases List.mem_append.mp h with h1 | h1
  · rcases List.mem_append.mp h1 with h2 | h2
    · by_cases hh : m.help = ""
      · rw [if_pos hh] at h2; exact absurd h2 (List.not_mem_nil _)
      · rw [if_neg hh] at h2
        rcases List.mem_singleton.mp h2 with rfl
        exact ⟨rfl, rfl⟩
    · rcases List.mem_singleton.mp h2 with rfl
      exact ⟨rfl, rfl⟩
  · by_cases hu : m.unitText = ""
    · rw [if_pos hu] at h1; exact absurd h1 (List.not_mem_nil _)
    · rw [if_neg hu] at h1
      rcases List.mem_singleton.mp h1 with rfl
      exact ⟨rfl, rfl⟩

theorem mem_renderM {l : RLine} {m : Metric} (h : l ∈ renderM m) :
    lineMetric l = m ∧ isMetaLine l = false := by
  rcases List.mem_singleton.mp h with rfl
  exact ⟨rfl, rfl⟩

theorem pairwise_of_all_rel {R : RLine → RLine → Prop} :
    ∀ (l : List RLine), (∀ a ∈ l, ∀ b ∈ l, R a b) → List.Pairwise R l
  | [], _ => List.Pairwise.nil
  | x :: xs, h =>
    List.Pairwise.cons
      (fun b hb => h x (List.mem_cons_self _ _) b (List.mem_cons_of_mem _ hb))
      (pairwise_of_all_rel xs
        (fun a ha b hb => h a (List.mem_cons_of_mem _ ha)
          b (List.mem_cons_of_mem _ hb)))

theorem generateGo_metric_mem : ∀ (fam : String) (ms : List Metric)
    (l : RLine), l ∈ generateGo fam ms → lineMetric l ∈ ms
  | fam, m :: rest, l, h => by
    unfold generateGo at h
    by_cases hf : fam = m.name
    · rw [if_pos hf] at h
      rcases List.mem_append.mp h with h1 | h1
      · rw [(mem_renderM h1).1]; exact List.mem_cons_self _ _
      · exact List.mem_cons_of_mem _ (generateGo_metric_mem fam rest l h1)
    · rw [if_neg hf, List.append_assoc] at h
      rcases List.mem_append.mp h with h1 | h1
      · rw [(mem_metaLines h1).1]; exact List.mem_cons_self _ _
      · rcases List.mem_append.mp h1 with h2 | h2
        · rw [(mem_renderM h2).1]; exact List.mem_cons_self _ _
        · exact List.mem_cons_of_mem _ (generateGo_metric_mem m.name rest l h2)

theorem generateGo_pairwise_lift (R : Metric → Metric → Prop)
    (hrefl : ∀ m, R m m) : ∀ (fam : String) (ms : List Metric),
    List.Pairwise R ms →
    List.Pairwise (fun a b => R (lineMetric a) (lineMetric b))
      (generateGo fam ms)
  | _, [], _ => List.Pairwise.nil
  | fam, m :: rest, hp => by
    rw [List.pairwise_cons] at hp
    obtain ⟨hhead, htail⟩ := hp
    unfold generateGo
    by_cases hf : fam = m.name
    · rw [if_pos hf]
      rw [List.pairwise_append]
      refine ⟨?_, generateGo_pairwise_lift R hrefl fam rest htail, ?_⟩
      · exact pairwise_of_all_rel _ (fun a ha b hb => by
          rw [(mem_renderM ha).1, (mem_renderM hb).1]; exact hrefl m)
      · intro a ha b hb
        rw [(mem_renderM ha).1]
        exact hhead _ (generateGo_metric_mem fam rest b hb)
    · rw [if_neg hf, List.append_assoc]
      rw [List.pairwise_append]
      refine ⟨?_, ?_, ?_⟩
      · exact pairwise_of_all_rel _ (fun a ha b hb => by
          rw [(mem_metaLines ha).1, (mem_metaLines hb).1]; exact hrefl m)
      · rw [List.pairwise_append]
        refine ⟨?_, generateGo_pairwise_lift R hrefl m.name rest htail, ?_⟩
        · exact pairwise_of_all_rel _ (fun a ha b hb => by
            rw [(mem_renderM ha).1, (mem_renderM hb).1]; exact hrefl m)
        · intro a ha b hb
          rw [(mem_renderM ha).1]
          exact hhead _ (generateGo_metric_mem m.name rest b hb)
      · intro a ha b hb
        rw [(mem_metaLines ha).1]
        rcases List.mem_append.mp hb with h2 | h2
        · rw [(mem_renderM h2).1]; exact hrefl m
        · exact hhead _ (generateGo_metric_mem m.name rest b h2)

theorem runStarts_names : ∀ (fam : String) (ms : List Metric) (x : String),
    x ∈ runStarts fam ms → ∃ m, m ∈ ms ∧ x = m.name
  | fam, m :: rest, x, h => by
    unfold runStarts at h
    by_cases hf : fam = m.name
    · rw [if_pos hf] at h
      obtain ⟨m', hm', hx⟩ := runStarts_names fam rest x h
      exact ⟨m', List.mem_cons_of_mem _ hm', hx⟩
    · rw [if_neg hf] at h
      rcases List.mem_cons.mp h with he | ht
      · exact ⟨m, List.mem_cons_self _ _, he⟩
      · obtain ⟨m', hm', hx⟩ := runStarts_names m.name rest x ht
        exact ⟨m', List.mem_cons_of_mem _ hm', hx⟩

theorem mem_runStarts_or : ∀ (fam : String) (ms : List Metric) (m : Metric),
    m ∈ ms → m.name = fam ∨ m.name ∈ runStarts fam ms
  | fam, m' :: rest, m, h => by
    unfold runStarts
    by_cases hf : fam = m'.name
    · rw [if_pos hf]
      rcases List.mem_cons.mp h with he | ht
      · exact Or.inl (by rw [he, hf])
      · exact mem_runStarts_or fam rest m ht
    · rw [if_neg hf]
      rcases List.mem_cons.mp h with he | ht
      · exact Or.inr (by rw [he]; exact List.mem_cons_self _ _)
      · rcases mem_runStarts_or m'.name rest m ht with he | hm
        · exact Or.inr (by rw [he]; exact List.mem_cons_self _ _)
        · exact Or.inr (List.mem_cons_of_mem _ hm)

theorem generateGo_meta_name : ∀ (fam : String) (ms : List Metric)
    (l : RLine), l ∈ generateGo fam ms → isMetaLine l = true →
    (lineMetric l).name ∈ runStarts fam ms
  | fam, m :: rest, l, h, hmeta => by
    unfold generateGo at h
    unfold runStarts
    by_cases hf : fam = m.name
    · rw [if_pos hf] at h ⊢
      rcases List.mem_append.mp h with h1 | h1
      · rw [(mem_renderM h1).2] at hmeta; exact Bool.noConfusion hmeta
      · exact generateGo_meta_name fam rest l h1 hmeta
    · rw [if_neg hf, List.append_assoc] at h
      rw [if_neg hf] at *
      rcases List.mem_append.mp h with h1 | h1
      · rw [(mem_metaLines h1).1]; exact List.mem_cons_self _ _
      · rcases List.mem_append.mp h1 with h2 | h2
        · rw [(mem_renderM h2).2] at hmeta; exact Bool.noConfusion hmeta
        · exact List.mem_cons_of_mem _
            (generateGo_meta_name m.name rest l h2 hmeta)

theorem countP_metaLines_ty (m : Metric) (f : String) :
    List.countP (isTypeOf f) (metaLines m) = if m.name = f then 1 else 0 := by
  unfold metaLines
  by_cases hh : m.help = "" <;> by_cases hu : m.unitText = "" <;>
    by_cases hn : m.name = f <;>
      simp [hh, hu, hn, List.countP_append, List.countP_cons, isTypeOf]

theorem countP_metaLines_help (m : Metric) (f : String) :
    List.countP (isHelpOf f) (metaLines m) ≤ if m.name = f then 1 else 0 := by
  unfold metaLines
  by_cases hh : m.help = "" <;> by_cases hu : m.unitText = "" <;>
    by_cases hn : m.name = f <;>
      simp [hh, hu, hn, List.countP_append, List.countP_cons, isHelpOf]

theorem countP_renderM_ty (m : Metric) (f : String) :
    List.countP (isTypeOf f) (renderM m) = 0 := by
  simp [renderM, List.countP_cons, isTypeOf]

theorem countP_renderM_help (m : Metric) (f : String) :
    List.countP (isHelpOf f) (renderM m) = 0 := by
  simp [renderM, List.countP_cons, isHelpOf]

theorem generateGo_countTy : ∀ (fam : String) (ms : List Metric)
    (f : String), List.countP (isTypeOf f) (generateGo fam ms) =
      List.count f (runStarts fam ms)
  | _, [], _ => rfl
  | fam, m :: rest, f => by
    unfold generateGo runStarts
    by_cases hf : fam = m.name
    · rw [if_pos hf, if_pos hf, List.countP_append, countP_renderM_ty,
        generateGo_countTy fam rest f]
      omega
    · rw [if_neg hf, if_neg hf, List.append_assoc, List.countP_append,
        List.countP_append, countP_metaLines_ty, countP_renderM_ty,
        generateGo_countTy m.name rest f, List.count_cons]
      simp only [beq_iff_eq]
      split_ifs <;> omega

theorem generateGo_countHelp : ∀ (fam : String) (ms : List Metric)
    (f : String), List.countP (isHelpOf f) (generateGo fam ms) ≤
      List.count f (runStarts fam ms)
  | _, [], _ => le_rfl
  | fam, m :: rest, f => by
    unfold generateGo runStarts
    by_cases hf : fam = m.name
    · rw [if_pos hf, if_pos hf, List.countP_append, countP_renderM_help]
      have h2 := generateGo_countHelp fam rest f
      omega
    · rw [if_neg hf, if_neg hf, List.append_assoc, List.countP_append,
        List.countP_append, countP_renderM_help,
        List.count_cons]
      simp only [beq_iff_eq]
      have h1 := countP_metaLines_help m f
      have h2 := generateGo_countHelp m.name rest f
      by_cases hn : m.name = f
      · rw [if_pos hn] at h1 ⊢
        omega
      · rw [if_neg hn] at h1 ⊢
        omega

/-- Within a family, the meta lines precede the instance lines: for every
ordered pair of output lines of the same family, if the later one is a
meta line, so is the earlier. -/
def precedePred (a b : RLine) : Prop :=
  (lineMetric a).name = (lineMetric b).name → isMetaLine b = true →
    isMetaLine a = true

instance : DecidableRel precedePred := fun a b => by
  unfold precedePred; infer_instance

theorem generateGo_meta_precede : ∀ (fam : String) (ms : List Metric),
    (runStarts fam ms).Nodup → fam ∉ runStarts fam ms →
    List.Pairwise precedePred (generateGo fam ms)
  | _, [], _, _ => List.Pairwise.nil
  | fam, m :: rest, hnd, hfam => by
    unfold generateGo
    unfold runStarts at hnd hfam
    by_cases hf : fam = m.name
    · rw [if_pos hf] at hnd hfam ⊢
      rw [List.pairwise_append]
      refine ⟨List.pairwise_singleton _ _,
        generateGo_meta_precede fam rest hnd hfam, ?_⟩
      intro a ha b hb
      intro hname hmetab
      exfalso
      have hrb : (lineMetric b).name ∈ runStarts fam rest :=
        generateGo_meta_name fam rest b hb hmetab
      rw [← hname, (mem_renderM ha).1, ← hf] at hrb
      exact hfam hrb
    · rw [if_neg hf] at hnd hfam ⊢
      rw [List.nodup_cons] at hnd
      obtain ⟨hm_notin, hnd'⟩ := hnd
      rw [List.append_assoc, List.pairwise_append]
      refine ⟨?_, ?_, ?_⟩
      · exact pairwise_of_all_rel _
          (fun a ha _ _ _ _ => (mem_metaLines ha).2)
      · rw [List.pairwise_append]
        refine ⟨List.pairwise_singleton _ _,
          generateGo_meta_precede m.name rest hnd' hm_notin, ?_⟩
        intro a ha b hb hname hmetab
        exfalso
        have hrb : (lineMetric b).name ∈ runStarts m.name rest :=
          generateGo_meta_name m.name rest b hb hmetab
        rw [← hname, (mem_renderM ha).1] at hrb
        exact hm_notin hrb
      · intro a ha b hb
        intro _ _
        exact (mem_metaLines ha).2

theorem clLt_false_of_gt {a b : Char} (h : b.toNat < a.toNat)
    (as bs : List Char) : clLt (a :: as) (b :: bs) = false := by
  unfold clLt
  rw [if_neg (Nat.lt_asymm h), if_pos h]

theorem makeNWSL_data_noninfo (name : String)
    (labels : List (String × String)) :
    ∃ t, (makeNWSL name "" labels false).data = name.data ++ t := by
  unfold makeNWSL
  by_cases hl : labels = []
  · rw [if_pos hl]
    exact ⟨[], by simp⟩
  · rw [if_neg hl]
    exact ⟨("\x7b" ++ String.intercalate ","
        (labels.map (fun l => l.1 ++ "=\"" ++ l.2 ++ "\"")) ++ "\x7d").data,
      by simp [String.data_append]⟩

theorem makeNWSL_data_info (name : String)
    (labels : List (String × String)) :
    ∃ t, (makeNWSL name "" labels true).data = '#' :: t := by
  unfold makeNWSL
  by_cases hl : labels = []
  · rw [if_pos hl]
    exact ⟨name.data, by simp [String.data_append]⟩
  · rw [if_neg hl]
    exact ⟨name.data ++ ("\x7b" ++ String.intercalate ","
        (labels.map (fun l => l.1 ++ "=\"" ++ l.2 ++ "\"")) ++ "\x7d").data,
      by simp [String.data_append]⟩

/-- The Info metrics come first in the output: a line of a non-Info metric
is never followed by a line of an Info metric. -/
def infoFirstLines (ls : List RLine) : Prop :=
  List.Pairwise (fun a b => (lineMetric b).kind = MKind.info →
    (lineMetric a).kind = MKind.info) ls

instance (ls : List RLine) : Decidable (infoFirstLines ls) := by
  unfold infoFirstLines; infer_instance

theorem reg_info_first (reg : Reg) (hsort : RegSorted reg)
    (hkeys : ∀ e ∈ reg, e.1 = makeKey e.2.name e.2.labels (some e.2.kind))
    (hnames : ∀ e ∈ reg, ∃ c cs, e.2.name.data = c :: cs ∧
      '#'.toNat < c.toNat) :
    List.Pairwise (fun a b : Metric => b.kind = MKind.info →
      a.kind = MKind.info) (reg.map Prod.snd) := by
  rw [List.pairwise_map]
  have hsort' := hsort
  rw [RegSorted] at hsort'
  have himp : ∀ a ∈ reg, ∀ b ∈ reg, strLt a.1 b.1 = true →
      (b.2.kind = MKind.info → a.2.kind = MKind.info) := by
    intro a ha b hb hlt hbinfo
    by_contra hanot
    obtain ⟨c, cs, hcdata, hcgt⟩ := hnames a ha
    have hka : a.1 = makeNWSL a.2.name "" a.2.labels false := by
      rw [hkeys a ha]
      unfold makeKey
      congr 1
      cases hk : a.2.kind <;> simp_all
    have hkb : b.1 = makeNWSL b.2.name "" b.2.labels true := by
      rw [hkeys b hb]
      unfold makeKey
      rw [hbinfo]
    obtain ⟨ta, hta⟩ := makeNWSL_data_noninfo a.2.name a.2.labels
    obtain ⟨tb, htb⟩ := makeNWSL_data_info b.2.name b.2.labels
    have : strLt a.1 b.1 = false := by
      unfold strLt
      rw [hka, hkb, hta, htb, hcdata]
      rw [List.cons_append]
      exact clLt_false_of_gt hcgt _ _
    rw [this] at hlt
    exact Bool.noConfusion hlt
  exact List.Pairwise.imp_of_mem (fun {a b} ha hb h => himp a ha b hb h) hsort'

theorem generateGo_concat : ∀ (fam : String) (ms : List Metric),
    ms ≠ [] → ∃ ls m, m ∈ ms ∧
      generateGo fam ms = ls ++ [RLine.instLine m (instText m)]
  | _, [], h => absurd rfl h
  | fam, m :: rest, _ => by
    unfold generateGo
    rcases hrest : rest with _ | ⟨r, rs⟩
    · by_cases hf : fam = m.name
      · rw [if_pos hf]
        exact ⟨[], m, List.mem_cons_self _ _, by simp [renderM, generateGo]⟩
      · rw [if_neg hf]
        exact ⟨metaLines m, m, List.mem_cons_self _ _,
          by simp [renderM, generateGo]⟩
    · have hne : rest ≠ [] := by rw [hrest]; simp
      rw [← hrest]
      by_cases hf : fam = m.name
      · rw [if_pos hf]
        obtain ⟨ls', m', hm', heq⟩ := generateGo_concat fam rest hne
        exact ⟨renderM m ++ ls', m', List.mem_cons_of_mem _ hm',
          by rw [heq, List.append_assoc]⟩
      · rw [if_neg hf]
        obtain ⟨ls', m', hm', heq⟩ := generateGo_concat m.name rest hne
        exact ⟨metaLines m ++ renderM m ++ ls', m',
          List.mem_cons_of_mem _ hm',
          by rw [heq]; simp only [List.append_assoc]⟩

theorem instText_decomp (m : Metric) :
    ∃ p, (instText m).data = p ++ (' ' :: m.created.data) := by
  unfold instText
  cases m.kind
  · exact ⟨(makeNWSL m.name "total" m.labels false ++ " " ++
      toString m.value).data, by simp [String.data_append]⟩
  · exact ⟨(makeNWSL m.name "" m.labels false ++ " " ++
      toString m.value).data, by simp [String.data_append]⟩
  · exact ⟨(makeNWSL m.name "info" m.labels false).data ++ [' ', '1'],
      by simp [String.data_append]⟩

theorem generate_no_eof_suffix (reg : Reg)
    (hcreated : ∀ e ∈ reg, ∀ c ∈ e.2.created.data,
      c.isDigit = true ∨ c = '.') :
    (generateChars reg).reverse.take 6 ≠ "# EOF\n".data.reverse := by
  intro hsuffix
  rw [show "# EOF\n".data.reverse = ['\n', 'F', 'O', 'E', ' ', '#'] from rfl]
    at hsuffix
  rcases hent : reg.map Prod.snd with _ | ⟨m0, ms⟩
  · rw [generateChars, generate, hent] at hsuffix
    exact absurd hsuffix (by decide)
  · have hne : reg.map Prod.snd ≠ [] := by rw [hent]; simp
    obtain ⟨ls, m, hm, heq⟩ := generateGo_concat "" _ hne
    rw [generateChars, generate, heq, List.map_append, List.flatten_append]
      at hsuffix
    obtain ⟨p, hp⟩ := instText_decomp m
    rw [show (([RLine.instLine m (instText m)].map
        (fun l => (lineText l).data ++ ['\n'])).flatten) =
        (instText m).data ++ ['\n'] from by simp [lineText],
      List.reverse_append, List.reverse_append, hp,
      List.reverse_append] at hsuffix
    rw [show (' ' :: m.created.data).reverse =
        m.created.data.reverse ++ [' '] from by simp] at hsuffix
    obtain ⟨e, he, hem⟩ := List.mem_map.mp hm
    rcases hcr : m.created.data.reverse with _ | ⟨c, ct⟩
    · rw [hcr] at hsuffix
      simp only [List.nil_append, List.cons_append, List.append_assoc]
        at hsuffix
      rw [show (['\n'].reverse = ['\n']) from rfl] at hsuffix
      simp [List.take_succ_cons] at hsuffix
    · rw [hcr] at hsuffix
      simp only [List.cons_append, List.append_assoc] at hsuffix
      rw [show (['\n'].reverse = ['\n']) from rfl] at hsuffix
      simp only [List.cons_append, List.take_succ_cons, List.cons.injEq]
        at hsuffix
      have hs2 := hsuffix.2
      simp only [List.nil_append, List.take_succ_cons, List.cons.injEq] at hs2
      have hcF : c = 'F' := hs2.1
      have hcmem : c ∈ m.created.data := by
        rw [← List.mem_reverse, hcr]
        exact List.mem_cons_self _ _
      rcases hcreated e he c (hem ▸ hcmem) with hd | hdot
      · rw [hcF] at hd
        exact absurd hd (by decide)
      · rw [hcF] at hdot
        exact absurd hdot (by decide)

/-- C2 (amended): `Metrics::generate` appends no `# EOF` footer — the
rendered text never ends with `# EOF\n` (the OpenMetrics footer is simply
absent from Metrics.cpp).  Given the registry invariants — keys computed
by `makeKey`, ascending key order, metric names starting with a character
above `'#'`, each family's keys contiguous in map order (equivalently: the
generate loop opens each family once), and `_created` timestamps rendered
as digits and dots — every Info family is rendered before every non-Info
family, each family's `# HELP` and `# TYPE` (and optional `# UNIT`) meta
lines are emitted exactly once (HELP at most once: only when the help text
is non-empty), and within a family all meta lines precede all instance
lines.  When a family's keys are *not* contiguous (e.g. `http` < 
`http_errors` < `http\x7bz="1"\x7d`), the loop re-emits the meta lines, which is
why contiguity is required. -/
theorem C2_generate_format (reg : Reg)
    (hsort : RegSorted reg)
    (hkeys : ∀ e ∈ reg, e.1 = makeKey e.2.name e.2.labels (some e.2.kind))
    (hnm : ∀ e ∈ reg, e.2.name.data ≠ [] ∧
      '#'.toNat < (e.2.name.data.headD ' ').toNat)
    (hruns : (runStarts "" (reg.map Prod.snd)).Nodup)
    (hcreated : ∀ e ∈ reg, ∀ c ∈ e.2.created.data,
      c.isDigit = true ∨ c = '.') :
    (generateChars reg).reverse.take 6 ≠ "# EOF\n".data.reverse ∧
    infoFirstLines (generate reg) ∧
    (∀ m ∈ reg.map Prod.snd,
      (generate reg).countP (isTypeOf m.name) = 1 ∧
      (generate reg).countP (isHelpOf m.name) ≤ 1) ∧
    List.Pairwise precedePred (generate reg) := by
  have hnames : ∀ e ∈ reg, ∃ c cs, e.2.name.data = c :: cs ∧
      '#'.toNat < c.toNat := by
    intro e he
    obtain ⟨hne, hgt⟩ := hnm e he
    rcases hd : e.2.name.data with _ | ⟨c, cs⟩
    · exact absurd hd hne
    · rw [hd] at hgt
      simp only [List.headD_cons] at hgt
      exact ⟨c, cs, rfl, hgt⟩
  have hname_ne : ∀ m ∈ reg.map Prod.snd, m.name ≠ "" := by
    intro m hm hcon
    obtain ⟨e, he, hem⟩ := List.mem_map.mp hm
    obtain ⟨c, cs, hdata, _⟩ := hnames e he
    rw [hem, hcon] at hdata
    exact List.noConfusion hdata
  refine ⟨generate_no_eof_suffix reg hcreated, ?_, ?_, ?_⟩
  · unfold infoFirstLines generate
    exact generateGo_pairwise_lift _ (fun m h => h) "" _
      (reg_info_first reg hsort hkeys hnames)
  · intro m hm
    have hmem : m.name ∈ runStarts "" (reg.map Prod.snd) := by
      rcases mem_runStarts_or "" _ m hm with he | hx
      · exact absurd he (hname_ne m hm)
      · exact hx
    have hcount : List.count m.name (runStarts "" (reg.map Prod.snd)) = 1 :=
      List.count_eq_one_of_mem hruns hmem
    constructor
    · rw [generate, generateGo_countTy, hcount]
    · rw [generate]
      calc List.countP (isHelpOf m.name)
            (generateGo "" (reg.map Prod.snd)) ≤
          List.count m.name (runStarts "" (reg.map Prod.snd)) :=
            generateGo_countHelp "" _ m.name
        _ = 1 := hcount
  · unfold generate
    refine generateGo_meta_precede "" _ hruns ?_
    intro hmem
    obtain ⟨m', hm', hname⟩ := runStarts_names "" _ "" hmem
    exact hname_ne m' hm' hname.symm

/-- A registry obeying the contiguity conditions: one Info metric `b` and
one counter `http`. -/
def cregW : Reg :=
  (addMetric (addMetric [] .info "b" "hb" "" [("v", "1")] 0 "1.0").1
    .counter "http" "hh" "" [] 3 "1.0").1

theorem C2_generate_format_witness :
    (RegSorted cregW ∧
      (∀ e ∈ cregW, e.1 = makeKey e.2.name e.2.labels (some e.2.kind)) ∧
      (∀ e ∈ cregW, e.2.name.data ≠ [] ∧
        '#'.toNat < (e.2.name.data.headD ' ').toNat) ∧
      (runStarts "" (cregW.map Prod.snd)).Nodup ∧
      (∀ e ∈ cregW, ∀ c ∈ e.2.created.data,
        c.isDigit = true ∨ c = '.')) ∧
    ((generateChars cregW).reverse.take 6 ≠ "# EOF\n".data.reverse ∧
    infoFirstLines (generate cregW) ∧
    (∀ m ∈ cregW.map Prod.snd,
      (generate cregW).countP (isTypeOf m.name) = 1 ∧
      (generate cregW).countP (isHelpOf m.name) ≤ 1) ∧
    List.Pairwise precedePred (generate cregW)) :=
  ⟨⟨by decide, by decide, by decide, by decide, by decide⟩,
    C2_generate_format cregW (by decide) (by decide) (by decide) (by decide)
      (by decide)⟩

/-- A registry exhibiting the failures of the claim as stated: a counter
named `"!x"` sorts before the Info metric `b` (its key `!x` is below the
`#`-prefixed Info key), and the counter family `http` has non-contiguous
keys (`http` < `http_errors` < `http\x7bz="1"\x7d`) so its meta lines are
emitted twice. -/
def cregC : Reg :=
  (addMetric (addMetric (addMetric (addMetric (addMetric []
    .counter "!x" "hx" "" [] 0 "1.0").1
    .info "b" "hb" "" [("v", "1")] 0 "1.0").1
    .counter "http" "hh" "" [] 3 "1.0").1
    .counter "http" "hh" "" [("z", "1")] 1 "1.0").1
    .counter "http_errors" "he" "" [] 2 "1.0").1

/-- C2 counterexample: the output of `Metrics::generate` on `cregC` does
not end with `# EOF\n` (no footer exists in the code), an Info family is
rendered after a non-Info family, and the split `http` family gets its
`# TYPE` line twice. -/
theorem C2_counterexample :
    ¬ ((generateChars cregC).reverse.take 6 = "# EOF\n".data.reverse ∧
       infoFirstLines (generate cregC) ∧
       (∀ m ∈ cregC.map Prod.snd,
         (generate cregC).countP (isTypeOf m.name) = 1 ∧
         (generate cregC).countP (isHelpOf m.name) ≤ 1) ∧
       List.Pairwise precedePred (generate cregC)) := by
  decide

/- ------------------------------------------------------------------ -/
/- Summary metric (include/yahat/Metrics.h:470-585)                   -/
/- ------------------------------------------------------------------ -/

/-- The default of the `max_samples` parameter of the `Summary`
constructor (Metrics.h:483). -/
def summaryDefaultMaxSamples : Nat := 500

/-- The mutable state of a `Summary<double>`: the configured quantiles and
ring-buffer capacity, the stored observations (oldest first), and the
running sum and count.  `double` observations are modelled as `ℚ`. -/
structure SummaryS where
  quantiles : List ℚ
  maxSamples : Nat
  observations : List ℚ
  sumv : ℚ
  count : Nat

/-- The `Summary` constructor (Metrics.h:483-488): empty circular buffer
of capacity `maxSamples` (default 500), zero sum and count. -/
def mkSummary (quantiles : List ℚ)
    (maxSamples : Nat := summaryDefaultMaxSamples) : SummaryS :=
  { quantiles := quantiles, maxSamples := maxSamples, observations := [],
    sumv := 0, count := 0 }

/-- `boost::circular_buffer::push_back`: append, evicting the oldest
element when the buffer is full (a zero-capacity buffer stores nothing). -/
def pushRing (cap : Nat) (obs : List ℚ) (v : ℚ) : List ℚ :=
  if cap = 0 then obs
  else if obs.length < cap then obs ++ [v]
  else obs.drop 1 ++ [v]

/-- `Summary::observe` (Metrics.h:497-502): add to the sum, bump the
count, push into the ring buffer. -/
def observeSummary (s : SummaryS) (v : ℚ) : SummaryS :=
  { s with
    sumv := s.sumv + v
    count := s.count + 1
    observations := pushRing s.maxSamples s.observations v }

/-- `Summary::calculateQuantiles` (Metrics.h:542-565): with no samples,
one `0.0` per configured quantile; otherwise sort the samples ascending
(`std::sort`), and for each quantile `q` compute `pos = q*n - 0.5`,
`index = size_t(max(0.0, floor(pos)))`, `fraction = pos - index`, taking
the last element when `index ≥ n - 1` and otherwise interpolating between
`sorted[index]` and `sorted[index+1]`. -/
def calculateQuantiles (s : SummaryS) : List ℚ :=
  if s.observations = [] then List.replicate s.quantiles.length 0
  else
    let sorted_data := List.insertionSort (fun a b : ℚ => a ≤ b) s.observations
    let n := sorted_data.length
    s.quantiles.map (fun q =>
      let pos : ℚ := q * n - 1/2
      let index : Nat := (max (0 : ℤ) ⌊pos⌋).toNat
      let fraction : ℚ := pos - index
      if n - 1 ≤ index then sorted_data.getD (n - 1) 0
      else sorted_data.getD index 0 +
        fraction * (sorted_data.getD (index + 1) 0 - sorted_data.getD index 0))

/-- The quantile rule as the spec words it (for refinement comparison):
linear interpolation between the two sorted samples bracketing position
`q·n − 0.5`, with the index clamped to `[0, n−1]`. -/
def quantileFromSpec (sorted_data : List ℚ) (q : ℚ) : ℚ :=
  let n := sorted_data.length
  let pos : ℚ := q * n - 1/2
  let i : Nat := min ((max (0 : ℤ) ⌊pos⌋).toNat) (n - 1)
  if i = n - 1 then sorted_data.getD (n - 1) 0
  else sorted_data.getD i 0 +
    (pos - i) * (sorted_data.getD (i + 1) 0 - sorted_data.getD i 0)

/-- Pointwise: the quantile expression of `calculateQuantiles` equals the
spec's clamped-interpolation formula. -/
theorem code_eq_spec_quantile (sd : List ℚ) (q : ℚ) :
    (let pos : ℚ := q * sd.length - 1/2
     let index : Nat := (max (0 : ℤ) ⌊pos⌋).toNat
     let fraction : ℚ := pos - index
     if sd.length - 1 ≤ index then sd.getD (sd.length - 1) 0
     else sd.getD index 0 +
       fraction * (sd.getD (index + 1) 0 - sd.getD index 0)) =
    quantileFromSpec sd q := by
  dsimp only [quantileFromSpec]
  by_cases hge : sd.length - 1 ≤ (max (0 : ℤ) ⌊q * (sd.length : ℚ) - 1/2⌋).toNat
  · rw [if_pos hge, Nat.min_eq_right hge, if_pos rfl]
  · rw [if_neg hge, Nat.min_eq_left (by omega), if_neg (by omega)]

/-- C9: Summary observations live in a bounded oldest-evicting ring buffer
whose default capacity is 500: below capacity `observe` appends, at
capacity it drops the oldest stored sample, and the stored-sample count
never exceeds the capacity.  Each rendered quantile equals the spec's
interpolation formula over the sorted samples (index clamped to
`[0, n−1]`), and with no samples every quantile renders as `0.0`. -/
theorem C9_summary_ring_and_quantiles :
    (∀ qs, (mkSummary qs).maxSamples = 500) ∧
    (∀ (s : SummaryS) (v : ℚ), s.observations.length < s.maxSamples →
      (observeSummary s v).observations = s.observations ++ [v]) ∧
    (∀ (s : SummaryS) (v : ℚ), 0 < s.maxSamples →
      s.maxSamples ≤ s.observations.length →
      (observeSummary s v).observations = s.observations.drop 1 ++ [v]) ∧
    (∀ (s : SummaryS) (v : ℚ), s.observations.length ≤ s.maxSamples →
      (observeSummary s v).observations.length ≤ s.maxSamples) ∧
    (∀ s : SummaryS, s.observations ≠ [] →
      calculateQuantiles s = s.quantiles.map (quantileFromSpec
        (List.insertionSort (fun a b : ℚ => a ≤ b) s.observations))) ∧
    (∀ s : SummaryS, s.observations = [] →
      calculateQuantiles s = List.replicate s.quantiles.length 0) := by
  refine ⟨fun _ => rfl, ?_, ?_, ?_, ?_, ?_⟩
  · intro s v hlt
    unfold observeSummary pushRing
    rw [if_neg (by omega), if_pos hlt]
  · intro s v hpos hge
    unfold observeSummary pushRing
    rw [if_neg (by omega), if_neg (by omega)]
  · intro s v hle
    unfold observeSummary pushRing
    by_cases h0 : s.maxSamples = 0
    · rw [if_pos h0]; exact hle
    · rw [if_neg h0]
      by_cases hlt : s.observations.length < s.maxSamples
      · rw [if_pos hlt]
        simp only [List.length_append, List.length_singleton]
        omega
      · rw [if_neg hlt]
        simp only [List.length_append, List.length_singleton,
          List.length_drop]
        omega
  · intro s hne
    unfold calculateQuantiles
    rw [if_neg hne]
    apply List.map_congr_left
    intro q _
    exact code_eq_spec_quantile
      (List.insertionSort (fun a b : ℚ => a ≤ b) s.observations) q
  · intro s hempty
    unfold calculateQuantiles
    rw [if_pos hempty]

/-- A concrete summary state with capacity 2 holding samples 1 and 3. -/
def sumW : SummaryS :=
  { quantiles := [1/2], maxSamples := 2, observations := [1, 3],
    sumv := 4, count := 2 }

theorem C9_summary_ring_and_quantiles_witness :
    (0 < sumW.maxSamples ∧ sumW.maxSamples ≤ sumW.observations.length ∧
      sumW.observations ≠ []) ∧
    ((observeSummary sumW 5).observations =
        sumW.observations.drop 1 ++ [5] ∧
      calculateQuantiles sumW = sumW.quantiles.map (quantileFromSpec
        (List.insertionSort (fun a b : ℚ => a ≤ b) sumW.observations)) ∧
      (mkSummary [1/2]).maxSamples = 500) :=
  ⟨⟨by decide, by decide, by decide⟩,
    ⟨C9_summary_ring_and_quantiles.2.2.1 sumW 5 (by decide) (by decide),
      C9_summary_ring_and_quantiles.2.2.2.2.1 sumW (by decide),
      C9_summary_ring_and_quantiles.1 [1/2]⟩⟩

/- ------------------------------------------------------------------ -/
/- SSE continuation (SseHandler / SseQueueHandler,                    -/
/- HttpServer.cpp:181-288, include/yahat/HttpServer.h:309-416)        -/
/- ------------------------------------------------------------------ -/

/-- The state of an SSE continuation relevant to close detection:
`sse_initialized_` (headers sent and the one-byte probe read posted,
HttpServer.cpp:187-214), `active_` (the queue worker's run flag),
the queued messages, and whether a `notify_connection_closed` callback
was registered via `setOnConnectionClosed` (the `SseQueueHandler`
constructor registers `closeSse`, HttpServer.cpp:228-234). -/
structure SseState where
  sse_initialized : Bool
  active : Bool
  queue : List String
  hasOnConnectionClosed : Bool
deriving DecidableEq

/-- `SseQueueHandler::closeSse` (HttpServer.cpp:251-254): clear `active_`
and cancel the timer so the queue worker's wait returns and the loop
exits. -/
def closeSse (s : SseState) : SseState := { s with active := false }

/-- The completion handler of the one-byte end-of-stream probe read posted
by `SseHandler::send` (HttpServer.cpp:207-213), translated as-is: its
entire body is a log statement — the lines that would mark the stream
closed (`eos_data_.ok = false`) and invoke
`eos_data_.notify_connection_closed()` are commented out in the source.
The returned flag reports whether `notify_connection_closed` was
invoked. -/
def onProbeReadComplete (s : SseState) : SseState × Bool := (s, false)

/-- Modelled from the spec: what the probe-read completion is specified to
do — mark the continuation inactive and invoke the registered
`on_connection_closed` callback (which for `SseQueueHandler` is
`closeSse`). -/
def onProbeReadCompleteSpec (s : SseState) : SseState × Bool :=
  if s.hasOnConnectionClosed then (closeSse s, true)
  else ({ s with active := false }, false)

/-- C3 evaluation at the failing input: an initialized, active SSE
continuation with a registered `on_connection_closed` callback whose probe
read completes (the client closed).  The code leaves the continuation
active and never invokes the callback, diverging from the specified
behaviour. -/
theorem C3_probe_completion_is_noop :
    (onProbeReadComplete ⟨true, true, ["event: m\ndata: 1\n\n"], true⟩).1.active
        = true ∧
    (onProbeReadComplete ⟨true, true, ["event: m\ndata: 1\n\n"], true⟩).2
        = false ∧
    onProbeReadComplete ⟨true, true, ["event: m\ndata: 1\n\n"], true⟩ ≠
      onProbeReadCompleteSpec ⟨true, true, ["event: m\ndata: 1\n\n"], true⟩ := by
  refine ⟨rfl, rfl, ?_⟩
  decide

/- ------------------------------------------------------------------ -/
/- FileHandler::resolve (HttpServer.cpp:1025-1065)                    -/
/- ------------------------------------------------------------------ -/

/-- A `std::filesystem::path` in generic format, at component level:
whether it is absolute, its non-empty filename components, and whether it
carries a trailing directory separator. -/
structure FsPath where
  absFlag : Bool
  comps : List String
  dirSlash : Bool
deriving DecidableEq

/-- Split a character sequence on `'/'`, dropping empty segments (the
component decomposition of a path string). -/
def splitOnSlash : List Char → List Char → List String
  | [], acc => if acc = [] then [] else [String.mk acc.reverse]
  | c :: rest, acc =>
    if c = '/' then
      if acc = [] then splitOnSlash rest []
      else String.mk acc.reverse :: splitOnSlash rest []
    else splitOnSlash rest (c :: acc)

/-- Decompose a path string: absolute iff it starts with `'/'`; trailing
directory separator iff it ends with `'/'` and has at least one
component. -/
def parsePath (s : String) : FsPath :=
  let comps := splitOnSlash s.data []
  { absFlag := decide (s.data.head? = some '/')
    comps := comps
    dirSlash := decide (s.data.getLast? = some '/') && decide (comps ≠ []) }

/-- Cancel `x/..` pairs (stack-based); leading `..`s of a relative path
are kept. -/
def normComps : List String → List String → List String
  | stack, [] => stack.reverse
  | stack, c :: rest =>
    if c = "." then normComps stack rest
    else if c = ".." then
      match stack with
      | [] => normComps [".."] rest
      | top :: stail =>
        if top = ".." then normComps (c :: top :: stail) rest
        else normComps stail rest
    else normComps (c :: stack) rest

/-- `std::filesystem::path::lexically_normal` at component level: remove
`.` components, cancel `x/..` pairs, drop `..`s that follow a root
directory, and turn a non-empty path that normalises to nothing into
`"."`.  (The trailing-separator bookkeeping of the C++ rules is
approximated: a preserved trailing separator requires a non-empty result
not ending in `..`; `FileHandler::resolve` strips any trailing separator
before validating, so the resolve model is insensitive to this detail.) -/
def lexNormal (p : FsPath) : FsPath :=
  if p.comps = [] ∧ p.absFlag = false then p
  else
    let cs0 := normComps [] p.comps
    let cs1 := if p.absFlag then cs0.dropWhile (fun c => c = "..") else cs0
    let cs2 := if cs1 = [] ∧ p.absFlag = false then ["."] else cs1
    { absFlag := p.absFlag
      comps := cs2
      dirSlash := (p.dirSlash || decide (p.comps.getLast? = some ".")) &&
        decide (cs2 ≠ []) && decide (cs2.getLast? ≠ some "..") }

/-- `operator/=` with a relative, non-empty right operand (the only way
`resolve` appends): concatenate the components; the result keeps the left
operand's absoluteness and the right operand's trailing separator. -/
def appendPath (a b : FsPath) : FsPath :=
  if b.absFlag then b
  else { absFlag := a.absFlag, comps := a.comps ++ b.comps,
         dirSlash := b.dirSlash }

/-- The native (generic-format) string of a path. -/
def nativeOf (p : FsPath) : String :=
  (if p.absFlag then "/" else "") ++
    String.intercalate "/" p.comps ++
    (if p.dirSlash ∧ p.comps ≠ [] then "/" else "")

/-- The component iteration sequence of a `std::filesystem::path`: the
root directory (as `"/"`), then the filenames, then an empty filename for
a trailing directory separator. -/
def iterComponents (p : FsPath) : List String :=
  (if p.absFlag then ["/"] else []) ++ p.comps ++
    (if p.dirSlash ∧ p.comps ≠ [] then [""] else [])

/-- The validation loop of `FileHandler::resolve`
(HttpServer.cpp:1052-1062): step through the root's components alongside
the resolved path's; running out of resolved components or hitting a
mismatch throws. -/
def validatePrefix : List String → List String → Except String Unit
  | [], _ => .ok ()
  | _ :: _, [] =>
    .error "Invalid target. Tries to access filesystem above root level"
  | a :: as, b :: bs =>
    if b ≠ a then
      .error "Invalid target. Tries to access filesystem outside root path"
    else validatePrefix as bs

/-- `HttpServer::FileHandler::resolve` (HttpServer.cpp:1025-1065),
statement by statement: strip leading slashes from the target; lexically
normalise it; reject a normalised target that starts with a slash; append
it to the root (when non-empty); lexically normalise; strip a trailing
slash; validate that the root's components are a prefix of the result's;
return the resolved path. -/
def resolve (root : FsPath) (target : String) : Except String FsPath :=
  let target' := target.data.dropWhile (fun c => c = '/')
  let t := lexNormal (parsePath (String.mk target'))
  if (nativeOf t) ≠ "" ∧ (nativeOf t).data.head? = some '/' then
    .error "Invalid target. Normalized target cannot start with slash!"
  else
    let raw := if target' ≠ [] then appendPath root t else root
    let r0 := lexNormal raw
    let r :=
      if (nativeOf r0) ≠ "" ∧ (nativeOf r0).data.getLast? = some '/' then
        parsePath (String.mk (nativeOf r0).data.dropLast)
      else r0
    match validatePrefix (iterComponents root) (iterComponents r) with
    | .ok _ => .ok r
    | .error e => .error e

theorem validatePrefix_ok : ∀ (a b : List String),
    validatePrefix a b = .ok () → ∃ t, b = a ++ t
  | [], b, _ => ⟨b, rfl⟩
  | _ :: _, [], h => by simp [validatePrefix] at h
  | a :: as, b :: bs, h => by
    unfold validatePrefix at h
    by_cases hne : b ≠ a
    · rw [if_pos hne] at h
      exact Except.noConfusion h
    · rw [if_neg hne] at h
      obtain ⟨t, ht⟩ := validatePrefix_ok as bs h
      rw [not_not] at hne
      exact ⟨t, by rw [ht, hne, List.cons_append]⟩

/-- C10: for every root directory and every target string,
`FileHandler::resolve` either throws or returns a path whose leading
components are exactly the components of the root directory (the
validation loop enforces the prefix, so no `..` segment or absolute
normalised target can escape the root). -/
theorem C10_resolve_stays_under_root (root : FsPath) (target : String)
    (r : FsPath) (h : resolve root target = .ok r) :
    ∃ t, iterComponents r = iterComponents root ++ t := by
  unfold resolve at h
  by_cases habs : (nativeOf (lexNormal (parsePath (String.mk
      (target.data.dropWhile (fun c => c = '/')))))) ≠ "" ∧
      (nativeOf (lexNormal (parsePath (String.mk
      (target.data.dropWhile (fun c => c = '/')))))).data.head? = some '/'
  · rw [if_pos habs] at h
    exact Except.noConfusion h
  · rw [if_neg habs] at h
    dsimp only at h
    rcases hv : validatePrefix (iterComponents root) (iterComponents
      (if (nativeOf (lexNormal (if target.data.dropWhile
            (fun c => c = '/') ≠ [] then
          appendPath root (lexNormal (parsePath (String.mk
            (target.data.dropWhile (fun c => c = '/'))))) else root))) ≠ ""
          ∧ (nativeOf (lexNormal (if target.data.dropWhile
            (fun c => c = '/') ≠ [] then
          appendPath root (lexNormal (parsePath (String.mk
            (target.data.dropWhile (fun c => c = '/'))))) else
            root))).data.getLast? = some '/' then
        parsePath (String.mk (nativeOf (lexNormal (if
          target.data.dropWhile (fun c => c = '/') ≠ [] then
          appendPath root (lexNormal (parsePath (String.mk
            (target.data.dropWhile (fun c => c = '/'))))) else
            root))).data.dropLast)
      else lexNormal (if target.data.dropWhile (fun c => c = '/') ≠ []
        then appendPath root (lexNormal (parsePath (String.mk
          (target.data.dropWhile (fun c => c = '/'))))) else root)))
      with e | u
    · rw [hv] at h
      dsimp only at h
      exact Except.noConfusion h
    · obtain ⟨⟩ := u
      rw [hv] at h
      dsimp only at h
      injection h with h'
      obtain ⟨t, ht⟩ := validatePrefix_ok _ _ hv
      exact ⟨t, by rw [← h', ht]⟩

/-- The document root `/var/www` used to exercise `resolve`. -/
def rootW : FsPath :=
  { absFlag := true, comps := ["var", "www"], dirSlash := false }

/-- The path `resolve rootW "/index.html"` produces. -/
def resolvedW : FsPath :=
  { absFlag := true, comps := ["var", "www", "index.html"],
    dirSlash := false }

theorem C10_resolve_stays_under_root_witness :
    resolve rootW "/index.html" = .ok resolvedW ∧
    ∃ t, iterComponents resolvedW = iterComponents rootW ++ t :=
  ⟨by decide,
    C10_resolve_stays_under_root rootW "/index.html" resolvedW (by decide)⟩
